import Mathlib

/-!
# Module generator of the PPC-to-IR code generator

A shallow embedding of `src/cpu/codegen/module_generator.cc`
(`xe::cpu::codegen::ModuleGenerator`) and theorems about it.

The generator drives a code generation backend whose objects (module,
function, basic block, pass manager) live outside the repository.  They are
modelled here by plain records that keep exactly the fields the generator
reads or writes.  A `Function*` is the position of the function in the
module's function list; functions are only ever appended, so positions are
stable.  Collaborators whose code is not part of the file (the body
translator, the pass pipeline, the symbol database) are parameters.
-/

namespace Xenia

/-! ## Symbol database records -/

/-- The classification read by `switch (fn->type)`: the two cases the switch
names, and any other value of the enumeration (the `default:` branch). -/
inductive FunctionSymbolType where
  | User
  | Kernel
  | Unknown
  deriving DecidableEq, Repr

/-- The export descriptor behind `fn->kernel_export`; only `IsImplemented()`
is consulted. -/
structure KernelExport where
  IsImplemented : Bool
  deriving DecidableEq, Repr

/-- The fields of `FunctionSymbol` the generator reads.  `start_address` is a
`uint32_t`, kept as a natural number since no arithmetic is done on it;
`kernel_export` is a pointer that may be null. -/
structure FunctionSymbol where
  type : FunctionSymbolType
  start_address : Nat
  name : String
  kernel_export : Option KernelExport
  deriving DecidableEq, Repr

/-- The symbol database as seen through `GetAllFunctions(functions)`: the
returned status and the symbols it appended to the (empty) vector. -/
structure SymbolDatabase where
  GetAllFunctions : Int × List FunctionSymbol

/-! ## Backend objects -/

/-- Value types of the backend, as far as the generator builds them. -/
inductive IRType where
  | void
  | int8
  | pointer (pointee : IRType)
  | other (tag : Nat)
  deriving DecidableEq, Repr

/-- A function type: result, parameters, variadic flag. -/
structure FunctionType where
  return_type : IRType
  params : List IRType
  isVarArg : Bool
  deriving DecidableEq, Repr

/-- The constructor `FunctionType::get(result, params, isVarArg)`. -/
def FunctionType.get (return_type : IRType) (params : List IRType)
    (isVarArg : Bool) : FunctionType :=
  { return_type := return_type, params := params, isVarArg := isVarArg }

inductive Visibility where
  | DefaultVisibility
  | HiddenVisibility
  | ProtectedVisibility
  deriving DecidableEq, Repr

inductive CallingConv where
  | C
  | Fast
  | other (id : Nat)
  deriving DecidableEq, Repr

inductive Attribute where
  | NoUnwind
  | NoAlias
  | other (tag : Nat)
  deriving DecidableEq, Repr

inductive Instruction where
  | RetVoid
  | other (tag : Nat)
  deriving DecidableEq, Repr

structure BasicBlock where
  name : String
  instructions : List Instruction
  deriving DecidableEq, Repr

/-- A formal argument; only its name is touched by the generator. -/
structure Argument where
  name : String
  deriving DecidableEq, Repr

/-- A function of the destination module.  `attributes` pairs an attribute
with the slot it sits on: slot `0` is the return value, slot `n` (`n ≥ 1`)
the `n`-th parameter, and `FunctionIndex` the function itself. -/
structure Function where
  name : String
  function_type : FunctionType
  visibility : Visibility
  callingConv : CallingConv
  attributes : List (Nat × Attribute)
  args : List Argument
  blocks : List BasicBlock
  deriving DecidableEq, Repr

/-- The attribute slot of the function itself (`~0U`). -/
def FunctionIndex : Nat := 4294967295

/-- The destination module: its function list.  Functions already present
are taken to be plain (non-local) functions, the only kind the generator
creates. -/
structure Module where
  functions : List Function
  deriving DecidableEq, Repr

namespace Function

def hasAttribute (f : Function) (slot : Nat) (a : Attribute) : Bool :=
  f.attributes.contains (slot, a)

def addAttribute (f : Function) (slot : Nat) (a : Attribute) : Function :=
  if f.hasAttribute slot a then f
  else { f with attributes := f.attributes ++ [(slot, a)] }

/-- The query `doesNotThrow() const`: is `nounwind` set on the function. -/
def doesNotThrow (f : Function) : Bool :=
  f.hasAttribute FunctionIndex Attribute.NoUnwind

/-- The query `doesNotAlias(n) const`. -/
def doesNotAlias (f : Function) (n : Nat) : Bool :=
  f.hasAttribute n Attribute.NoAlias

def setDoesNotAlias (f : Function) (n : Nat) : Function :=
  f.addAttribute n Attribute.NoAlias

def setVisibility (f : Function) (v : Visibility) : Function :=
  { f with visibility := v }

def setCallingConv (f : Function) (cc : CallingConv) : Function :=
  { f with callingConv := cc }

/-- The effect of `arg_begin()->setName(n)`: rename the first argument. -/
def setFirstArgName (f : Function) (n : String) : Function :=
  match f.args with
  | [] => f
  | _ :: rest => { f with args := { name := n } :: rest }

/-- The function with its body replaced by `body`. -/
def withBody (f : Function) (body : List BasicBlock) : Function :=
  { f with blocks := body }

/-- The result of `Function::Create(ft, linkage, name)`: a declaration with
one unnamed argument per parameter, default visibility, the C calling
convention, no attributes and no body. -/
def Create (ft : FunctionType) (name : String) : Function :=
  { name := name
    function_type := ft
    visibility := Visibility.DefaultVisibility
    callingConv := CallingConv.C
    attributes := []
    args := ft.params.map (fun _ => { name := "" })
    blocks := [] }

end Function

/-- The first function called `name`, with its position. -/
def findNamed (name : String) : List Function → Option (Nat × Function)
  | [] => none
  | f :: rest =>
    if f.name = name then some (0, f)
    else match findNamed name rest with
      | some (i, f1) => some (i + 1, f1)
      | none => none

/-- What `getOrInsertFunction` hands back: a function, or a cast expression
wrapped around a function of another type. -/
inductive Constant where
  | function (f : Nat)
  | bitcast (f : Nat) (ft : FunctionType)
  deriving DecidableEq, Repr

/-- The lookup-or-create `Module::getOrInsertFunction(name, ft)`: a missing
name is appended as a new declaration; an existing function of the same type
is returned; an existing function of another type is returned under a cast. -/
def Module.getOrInsertFunction (m : Module) (name : String) (ft : FunctionType) :
    Constant × Module :=
  match findNamed name m.functions with
  | none =>
    (Constant.function m.functions.length,
      { functions := m.functions ++ [Function.Create ft name] })
  | some (i, f) =>
    if f.function_type = ft then (Constant.function i, m)
    else (Constant.bitcast i ft, m)

/-- The checked downcast `cast<Function>(c)`: it fails on anything that is
not a function. -/
def castFunction : Constant → Option Nat
  | Constant.function f => some f
  | Constant.bitcast _ _ => none

/-- Apply `g` to the function at handle `f`. -/
def Module.update (m : Module) (f : Nat) (g : Function → Function) : Module :=
  match m.functions[f]? with
  | none => m
  | some fn => { functions := m.functions.set f (g fn) }

/-- The effect of `BasicBlock::Create(context, name, f)`: a new empty block at
the end of the function; the handle of the block is its position.  The block
carries the name asked for (the backend would add a numeric suffix if the
function already held a value of that name). -/
def BasicBlock.Create (name : String) (f : Function) : Nat × Function :=
  (f.blocks.length, f.withBody (f.blocks ++ [{ name := name, instructions := [] }]))

/-- Append `i` to the instructions of a block. -/
def BasicBlock.push (b : BasicBlock) (i : Instruction) : BasicBlock :=
  { b with instructions := b.instructions ++ [i] }

/-- The effect of `IRBuilder<> builder(block); builder.CreateRetVoid()`: a
return at the end of `block`. -/
def CreateRetVoid (f : Function) (block : Nat) : Function :=
  match f.blocks[block]? with
  | none => f
  | some b => f.withBody (f.blocks.set block (b.push Instruction.RetVoid))

/-! ## Pass pipeline -/

inductive Pass where
  | Verifier
  | FunctionInlining
  | other (tag : Nat)
  deriving DecidableEq, Repr

/-- The fields of `PassManagerBuilder` that `OptimizeFunction` assigns. -/
structure PassManagerBuilder where
  OptLevel : Nat
  SizeLevel : Nat
  Inliner : Option Pass
  Vectorize : Bool
  LoopVectorize : Bool
  deriving DecidableEq, Repr

def createFunctionInliningPass : Pass := Pass.FunctionInlining

def createVerifierPass : Pass := Pass.Verifier

/-! ## Collaborators and generator state -/

/-- Everything the generator calls but does not define:
* `FLAGS_optimize_ir_functions`, the process-wide flag;
* `populateFunctionPassManager`, the passes a configured builder adds;
* `run`, the effect of running a pass list over one function (a function pass
  rewrites the body of the function it is run over): the new body, or nothing
  when the verifier aborts the process;
* `GenerateBasicBlocks`, the body translator, given the symbol, the handle of
  its declaration and the module; whatever it returns is ignored by the
  caller, so only its effect on the module is kept. -/
structure Env where
  FLAGS_optimize_ir_functions : Bool
  populateFunctionPassManager : PassManagerBuilder → List Pass
  run : List Pass → Function → Option (List BasicBlock)
  GenerateBasicBlocks : FunctionSymbol → Nat → Module → Module

/-- The record `ModuleGenerator::CodegenFunction`. -/
structure CodegenFunction where
  symbol : FunctionSymbol
  function_type : FunctionType
  function : Nat
  deriving DecidableEq, Repr

/-- Calls observed during generation, in the order they are made. -/
inductive Event where
  | createCompileUnit
  | PrepareFunction (fn : FunctionSymbol)
  | AddPresentImport (fn : FunctionSymbol)
  | AddMissingImport (fn : FunctionSymbol)
  | BuildFunction (cgf : CodegenFunction)
  | GenerateBasicBlocks (fn : FunctionSymbol) (f : Nat)
  | OptimizeFunction (f : Nat)
  | finalize
  deriving DecidableEq, Repr

/-- The generator: the borrowed module, the registry `functions_` (an ordered
map, kept as a list of entries in ascending key order) and the log of calls
made so far.  The debug-info builder `di_builder_` appears through its two
calls in the log; the memory handle and the other borrowed pointers are only
passed on to the translator. -/
structure ModuleGenerator where
  gen_module_ : Module
  functions_ : List (Nat × CodegenFunction)
  log : List Event
  deriving DecidableEq, Repr

/-- The constructor: an empty registry around the given module. -/
def ModuleGenerator.new (gen_module : Module) : ModuleGenerator :=
  { gen_module_ := gen_module, functions_ := [], log := [] }

def ModuleGenerator.emit (g : ModuleGenerator) (e : Event) : ModuleGenerator :=
  { g with log := g.log ++ [e] }

/-! ## The ordered map -/

/-- The member `std::map::insert(pair)`: the entry goes to its place in key
order, and nothing changes when the key is already present. -/
def mapInsert {α : Type} (k : Nat) (v : α) : List (Nat × α) → List (Nat × α)
  | [] => [(k, v)]
  | (k1, v1) :: rest =>
    if k < k1 then (k, v) :: (k1, v1) :: rest
    else if k = k1 then (k1, v1) :: rest
    else (k1, v1) :: mapInsert k v rest

/-- The member `std::map::find(key)`, `none` standing for `end()`. -/
def mapFind {α : Type} (k : Nat) : List (Nat × α) → Option α
  | [] => none
  | (k1, v1) :: rest => if k1 = k then some v1 else mapFind k rest

/-! ## The generator's methods -/

/-- The method `ModuleGenerator::GetCodegenFunction(address)`; `none` is the
null result. -/
def GetCodegenFunction (g : ModuleGenerator) (address : Nat) : Option CodegenFunction :=
  mapFind address g.functions_

/-- The method `ModuleGenerator::CreateFunctionDefinition(name)`, on the
module: the handle of the declaration and the module afterwards, or nothing
when the downcast fails.  The line `f->doesNotThrow();` is a query whose
result is dropped. -/
def CreateFunctionDefinition (m : Module) (name : String) : Option (Nat × Module) :=
  let args : List IRType := [IRType.pointer IRType.int8]
  let return_type := IRType.void
  let ft := FunctionType.get return_type args false
  let (c, m) := m.getOrInsertFunction name ft
  match castFunction c with
  | none => none
  | some f =>
    let m := m.update f (fun fn => fn.setVisibility Visibility.DefaultVisibility)
    let m := m.update f (fun fn => let _ := fn.doesNotThrow; fn)
    let m := m.update f (fun fn => fn.setCallingConv CallingConv.C)
    let m := m.update f (fun fn => fn.setFirstArgName "state")
    let m := m.update f (fun fn => fn.setDoesNotAlias 1)
    some (f, m)

/-- The pass list `OptimizeFunction` assembles in its pass manager. -/
def OptimizeFunction.passes (env : Env) : List Pass :=
  let pm : List Pass := []
  let pm :=
    if env.FLAGS_optimize_ir_functions then
      let pmb : PassManagerBuilder :=
        { OptLevel := 3
          SizeLevel := 0
          Inliner := some createFunctionInliningPass
          Vectorize := true
          LoopVectorize := true }
      pm ++ env.populateFunctionPassManager pmb
    else pm
  pm ++ [createVerifierPass]

/-- The method `ModuleGenerator::OptimizeFunction(m, fn)`: the pass manager is
filled and run over the function; there is no result when the verifier aborts
(or when the handle points at nothing). -/
def OptimizeFunction (env : Env) (g : ModuleGenerator) (fn : Nat) : Option ModuleGenerator :=
  let g := g.emit (Event.OptimizeFunction fn)
  match g.gen_module_.functions[fn]? with
  | none => none
  | some f =>
    match env.run (OptimizeFunction.passes env) f with
    | none => none
    | some body =>
      some { g with gen_module_ := g.gen_module_.update fn (fun f => f.withBody body) }

/-- The method `ModuleGenerator::AddMissingImport(fn)`. -/
def AddMissingImport (env : Env) (g : ModuleGenerator) (fn : FunctionSymbol) :
    Option ModuleGenerator :=
  let g := g.emit (Event.AddMissingImport fn)
  match CreateFunctionDefinition g.gen_module_ fn.name with
  | none => none
  | some (f, m) =>
    let m := m.update f (fun fn =>
      let (block, fn) := BasicBlock.Create "entry" fn
      CreateRetVoid fn block)
    OptimizeFunction env { g with gen_module_ := m } f

/-- The method `ModuleGenerator::AddPresentImport(fn)`: its body holds only
comments. -/
def AddPresentImport (g : ModuleGenerator) (fn : FunctionSymbol) : Option ModuleGenerator :=
  some (g.emit (Event.AddPresentImport fn))

/-- The method `ModuleGenerator::PrepareFunction(fn)`. -/
def PrepareFunction (g : ModuleGenerator) (fn : FunctionSymbol) : Option ModuleGenerator :=
  let g := g.emit (Event.PrepareFunction fn)
  match CreateFunctionDefinition g.gen_module_ fn.name with
  | none => none
  | some (f, m) =>
    match m.functions[f]? with
    | none => none
    | some fdef =>
      let cgf : CodegenFunction :=
        { symbol := fn, function_type := fdef.function_type, function := f }
      some { g with gen_module_ := m, functions_ := mapInsert fn.start_address cgf g.functions_ }

/-- The method `ModuleGenerator::BuildFunction(cgf)`.  The line it prints with
the name of the function is left out. -/
def BuildFunction (env : Env) (g : ModuleGenerator) (cgf : CodegenFunction) :
    Option ModuleGenerator :=
  let g := g.emit (Event.BuildFunction cgf)
  let fn := cgf.symbol
  let g := g.emit (Event.GenerateBasicBlocks fn cgf.function)
  let g := { g with gen_module_ := env.GenerateBasicBlocks fn cgf.function g.gen_module_ }
  OptimizeFunction env g cgf.function

/-- Modelled from the spec: the assertion `XEASSERTALWAYS()`, whose definition
is not part of the file.  Sections 4.4 and 7 make an unrecognized
classification a fatal, process-terminating error, so the run has no result. -/
def XEASSERTALWAYS : Option ModuleGenerator := none

/-- The test `fn->kernel_export && fn->kernel_export->IsImplemented()`. -/
def hasImplementedExport (fn : FunctionSymbol) : Bool :=
  match fn.kernel_export with
  | none => false
  | some e => e.IsImplemented

/-- The body of the first loop of `Generate`: the switch on `fn->type`. -/
def declare (env : Env) (g : ModuleGenerator) (fn : FunctionSymbol) : Option ModuleGenerator :=
  match fn.type with
  | FunctionSymbolType.User => PrepareFunction g fn
  | FunctionSymbolType.Kernel =>
    if hasImplementedExport fn then
      AddPresentImport g fn
    else
      AddMissingImport env g fn
  | FunctionSymbolType.Unknown => XEASSERTALWAYS

/-- The first loop of `Generate`, over the retrieved vector. -/
def declareAll (env : Env) (g : ModuleGenerator) : List FunctionSymbol → Option ModuleGenerator
  | [] => some g
  | fn :: rest =>
    match declare env g fn with
    | none => none
    | some g1 => declareAll env g1 rest

/-- The second loop of `Generate`, over the registry entries in key order. -/
def buildAll (env : Env) (g : ModuleGenerator) :
    List (Nat × CodegenFunction) → Option ModuleGenerator
  | [] => some g
  | (_, cgf) :: rest =>
    match BuildFunction env g cgf with
    | none => none
    | some g1 => buildAll env g1 rest

/-- The method `ModuleGenerator::Generate()`: the status it returns and the
generator afterwards, or nothing when the process is terminated on the way.
The strings handed to `createCompileUnit` are not modelled. -/
def Generate (env : Env) (sdb : SymbolDatabase) (g : ModuleGenerator) :
    Option (Int × ModuleGenerator) :=
  let g := g.emit Event.createCompileUnit
  let (status, functions) := sdb.GetAllFunctions
  match (if status = 0 then declareAll env g functions else some g) with
  | none => none
  | some g =>
    match buildAll env g g.functions_ with
    | none => none
    | some g => some (0, g.emit Event.finalize)

/-! ## Vocabulary of the statements -/

/-- The setters of `CreateFunctionDefinition`, in the order it calls them. -/
def applyAbi (f : Function) : Function :=
  (((f.setVisibility Visibility.DefaultVisibility).setCallingConv CallingConv.C).setFirstArgName
    "state").setDoesNotAlias 1

/-- The type `void (i8*)` every declaration is given. -/
def abiType : FunctionType :=
  FunctionType.get IRType.void [IRType.pointer IRType.int8] false

/-- The one shape of a declaration: `void (i8*)`, not variadic, a single
argument called `state` marked no-alias, the C calling convention. -/
def HasAbiShape (f : Function) : Prop :=
  f.function_type.return_type = IRType.void ∧
  f.function_type.params = [IRType.pointer IRType.int8] ∧
  f.function_type.isVarArg = false ∧
  f.args = [{ name := "state" }] ∧
  f.doesNotAlias 1 = true ∧
  f.callingConv = CallingConv.C

instance (f : Function) : Decidable (HasAbiShape f) := by
  unfold HasAbiShape
  infer_instance

/-- The body `AddMissingImport` writes: one block `entry` holding `ret void`. -/
def stubBody : List BasicBlock :=
  [{ name := "entry", instructions := [Instruction.RetVoid] }]

/-- The stub of an import called `name`: the fresh declaration with the body
`stubBody`. -/
def stubFunction (name : String) : Function :=
  (applyAbi (Function.Create abiType name)).withBody stubBody

/-- Every function of the module has the type `void (i8*)`, so that no lookup
by name can come back under a cast. -/
def AllAbi (m : Module) : Prop :=
  ∀ f ∈ m.functions, f.function_type = abiType

instance (m : Module) : Decidable (AllAbi m) := by
  unfold AllAbi
  infer_instance

/-- The function at handle `h` is called `n`. -/
def NameAt (m : Module) (h : Nat) (n : String) : Prop :=
  ∃ f, m.functions[h]? = some f ∧ f.name = n

/-- From `m` to `m1` every function keeps its handle and its name, functions
not called `name` are untouched, and every function that is new or changed is
called `name`. -/
def Touches (name : String) (m m1 : Module) : Prop :=
  (∀ (i : Nat) (f : Function), m.functions[i]? = some f →
      ∃ f1 : Function, m1.functions[i]? = some f1 ∧ f1.name = f.name ∧ (f.name ≠ name → f1 = f)) ∧
  (∀ (i : Nat) (f1 : Function), m1.functions[i]? = some f1 →
      f1.name = name ∨ m.functions[i]? = some f1)

/-- The keys of the registry ascend strictly, as the keys of a `std::map` do. -/
def KeysAscend {α : Type} (m : List (Nat × α)) : Prop :=
  (m.map Prod.fst).Pairwise (· < ·)

instance {α : Type} (m : List (Nat × α)) : Decidable (KeysAscend m) := by
  unfold KeysAscend
  infer_instance

/-- A User symbol that starts at `a`. -/
def isUserAt (a : Nat) (s : FunctionSymbol) : Bool :=
  decide (s.type = FunctionSymbolType.User) && decide (s.start_address = a)

/-- The symbol a declaration-pass call is made for. -/
def Event.declares : Event → Option FunctionSymbol
  | Event.PrepareFunction fn => some fn
  | Event.AddPresentImport fn => some fn
  | Event.AddMissingImport fn => some fn
  | _ => none

/-- Calls that belong to the declaration pass: the three per-symbol actions
and the optimizer run of an import stub. -/
def Event.inDeclarationPass : Event → Bool
  | Event.PrepareFunction _ => true
  | Event.AddPresentImport _ => true
  | Event.AddMissingImport _ => true
  | Event.OptimizeFunction _ => true
  | _ => false

/-- The calls `BuildFunction` makes for one registry entry. -/
def buildEvents (kv : Nat × CodegenFunction) : List Event :=
  [Event.BuildFunction kv.2, Event.GenerateBasicBlocks kv.2.symbol kv.2.function,
    Event.OptimizeFunction kv.2.function]

/-- Is this the call that hands function `f` to the body translator. -/
def Event.translates (f : Nat) : Event → Bool
  | Event.GenerateBasicBlocks _ f1 => decide (f1 = f)
  | _ => false

/-- How often function `f` was handed to `GenerateBasicBlocks`. -/
def translations (log : List Event) (f : Nat) : Nat :=
  log.countP (Event.translates f)

/-- How often function `f` was handed to `OptimizeFunction`. -/
def optimizations (log : List Event) (f : Nat) : Nat :=
  log.count (Event.OptimizeFunction f)

/-! ## Concrete collaborators and catalogs used by the examples -/

/-- A pipeline that adds nothing, a pass run that leaves the body alone and a
translator that leaves the module alone. -/
def plainEnv : Env :=
  { FLAGS_optimize_ir_functions := false
    populateFunctionPassManager := fun _ => []
    run := fun _ f => some f.blocks
    GenerateBasicBlocks := fun _ _ m => m }

/-- A module without functions. -/
def emptyModule : Module := { functions := [] }

/-- The symbols of the scenario of section 8. -/
def sub_1000 : FunctionSymbol :=
  { type := FunctionSymbolType.User, start_address := 0x1000, name := "sub_1000",
    kernel_export := none }

def KeBugCheck : FunctionSymbol :=
  { type := FunctionSymbolType.Kernel, start_address := 0x2000, name := "KeBugCheck",
    kernel_export := some { IsImplemented := false } }

def NtClose : FunctionSymbol :=
  { type := FunctionSymbolType.Kernel, start_address := 0x3000, name := "NtClose",
    kernel_export := some { IsImplemented := true } }

/-- The catalog of the scenario of section 8. -/
def scenarioDb : SymbolDatabase :=
  { GetAllFunctions := (0, [sub_1000, KeBugCheck, NtClose]) }

/-- The generator after `Generate` on the scenario of section 8. -/
def scenarioResult : ModuleGenerator :=
  ((Generate plainEnv scenarioDb (ModuleGenerator.new emptyModule)).map Prod.snd).getD
    (ModuleGenerator.new emptyModule)

/-- A database whose retrieval fails with status 1. -/
def failingDb : SymbolDatabase :=
  { GetAllFunctions := (1, [sub_1000, KeBugCheck, NtClose]) }

/-- The generator after `Generate` on `failingDb`. -/
def failingResult : ModuleGenerator :=
  ((Generate plainEnv failingDb (ModuleGenerator.new emptyModule)).map Prod.snd).getD
    (ModuleGenerator.new emptyModule)

/-- Another User symbol at the address of `sub_1000`. -/
def sub_1000_again : FunctionSymbol :=
  { type := FunctionSymbolType.User, start_address := 0x1000, name := "sub_1000_again",
    kernel_export := none }

/-- Two User symbols at one address, then an import. -/
def duplicateDb : SymbolDatabase :=
  { GetAllFunctions := (0, [sub_1000, sub_1000_again, KeBugCheck]) }

/-- The generator after `Generate` on `duplicateDb`. -/
def duplicateResult : ModuleGenerator :=
  ((Generate plainEnv duplicateDb (ModuleGenerator.new emptyModule)).map Prod.snd).getD
    (ModuleGenerator.new emptyModule)

/-- A second User symbol called `sub_1000`, at another address. -/
def sub_1000_twin : FunctionSymbol :=
  { type := FunctionSymbolType.User, start_address := 0x2000, name := "sub_1000",
    kernel_export := none }

/-- Two User symbols of one name at two addresses. -/
def sameNameDb : SymbolDatabase :=
  { GetAllFunctions := (0, [sub_1000, sub_1000_twin]) }

/-- A second missing import called `KeBugCheck`, at another address. -/
def KeBugCheck_twin : FunctionSymbol :=
  { type := FunctionSymbolType.Kernel, start_address := 0x2010, name := "KeBugCheck",
    kernel_export := none }

/-- Two missing imports of one name. -/
def sameImportDb : SymbolDatabase :=
  { GetAllFunctions := (0, [KeBugCheck, KeBugCheck_twin]) }

/-- A catalog holding one import whose export is implemented. -/
def presentDb : SymbolDatabase :=
  { GetAllFunctions := (0, [NtClose]) }

/-- The generator after `PrepareFunction(sub_1000)` on an empty module. -/
def preparedResult : ModuleGenerator :=
  (PrepareFunction (ModuleGenerator.new emptyModule) sub_1000).getD
    (ModuleGenerator.new emptyModule)

/-- The generator after `AddMissingImport(KeBugCheck)` on an empty module. -/
def stubbedResult : ModuleGenerator :=
  (AddMissingImport plainEnv (ModuleGenerator.new emptyModule) KeBugCheck).getD
    (ModuleGenerator.new emptyModule)

/-! ## Lookup and declaration creation -/

theorem findNamed_some {name : String} {l : List Function} {i : Nat} {f : Function}
    (h : findNamed name l = some (i, f)) : l[i]? = some f ∧ f.name = name := by
  induction l generalizing i with
  | nil => simp [findNamed] at h
  | cons a rest ih =>
    unfold findNamed at h
    split_ifs at h with hn
    · simp at h
      obtain ⟨rfl, rfl⟩ := h
      simp [hn]
    · cases hr : findNamed name rest with
      | none => simp [hr] at h
      | some p =>
        obtain ⟨j, f1⟩ := p
        simp [hr] at h
        obtain ⟨rfl, rfl⟩ := h
        have := ih hr
        simpa using this

theorem findNamed_none {name : String} {l : List Function}
    (h : findNamed name l = none) : ∀ f ∈ l, f.name ≠ name := by
  induction l with
  | nil => simp
  | cons a rest ih =>
    unfold findNamed at h
    split_ifs at h with hn
    cases hr : findNamed name rest with
    | none =>
      intro f hf
      rcases List.mem_cons.mp hf with rfl | hf
      · exact hn
      · exact ih hr f hf
    | some p => simp [hr] at h

theorem Module.update_update (m : Module) (h : Nat) (g1 g2 : Function → Function) :
    (m.update h g1).update h g2 = m.update h (fun f => g2 (g1 f)) := by
  unfold Module.update
  cases hm : m.functions[h]? with
  | none => simp [hm]
  | some f =>
    have hlt : h < m.functions.length := by
      rcases List.getElem?_eq_some_iff.mp hm with ⟨hlt, _⟩
      exact hlt
    simp [hm, List.getElem?_set, hlt]

theorem CreateFunctionDefinition_eq (m : Module) (name : String) :
    CreateFunctionDefinition m name =
      match findNamed name m.functions with
      | none =>
        some (m.functions.length,
          { functions := m.functions ++ [applyAbi (Function.Create abiType name)] })
      | some (i, f) =>
        if f.function_type = abiType then some (i, { functions := m.functions.set i (applyAbi f) })
        else none := by
  unfold CreateFunctionDefinition Module.getOrInsertFunction
  cases hf : findNamed name m.functions with
  | none =>
    simp only [castFunction, Module.update_update]
    simp [Module.update, applyAbi, abiType]
  | some p =>
    obtain ⟨i, f⟩ := p
    have hi := (findNamed_some hf).1
    by_cases ht : f.function_type = abiType
    · have ht2 : f.function_type = FunctionType.get IRType.void [IRType.pointer IRType.int8] false := ht
      simp only [ht2, if_true, castFunction, Module.update_update]
      simp [Module.update, hi, applyAbi, abiType]
    · have ht2 : ¬ f.function_type = FunctionType.get IRType.void [IRType.pointer IRType.int8] false := ht
      simp [ht2, castFunction, ht]

/-! ## Changes confined to one name -/

@[simp] theorem applyAbi_name (f : Function) : (applyAbi f).name = f.name := by
  unfold applyAbi Function.setDoesNotAlias Function.addAttribute Function.setFirstArgName
    Function.setCallingConv Function.setVisibility
  split_ifs <;> (cases f.args <;> rfl)

@[simp] theorem applyAbi_blocks (f : Function) : (applyAbi f).blocks = f.blocks := by
  unfold applyAbi Function.setDoesNotAlias Function.addAttribute Function.setFirstArgName
    Function.setCallingConv Function.setVisibility
  split_ifs <;> (cases f.args <;> rfl)

@[simp] theorem applyAbi_function_type (f : Function) :
    (applyAbi f).function_type = f.function_type := by
  unfold applyAbi Function.setDoesNotAlias Function.addAttribute Function.setFirstArgName
    Function.setCallingConv Function.setVisibility
  split_ifs <;> (cases f.args <;> rfl)

@[simp] theorem applyAbi_callingConv (f : Function) :
    (applyAbi f).callingConv = CallingConv.C := by
  unfold applyAbi Function.setDoesNotAlias Function.addAttribute Function.setFirstArgName
    Function.setCallingConv Function.setVisibility
  split_ifs <;> (cases f.args <;> rfl)

theorem applyAbi_doesNotThrow (f : Function) :
    (applyAbi f).doesNotThrow = f.doesNotThrow := by
  unfold applyAbi Function.setDoesNotAlias Function.addAttribute Function.setFirstArgName
    Function.setCallingConv Function.setVisibility Function.doesNotThrow Function.hasAttribute
  split_ifs <;> (cases f.args <;> simp [FunctionIndex])

theorem Touches.refl (name : String) (m : Module) : Touches name m m :=
  ⟨fun _ f hf => ⟨f, hf, rfl, fun _ => rfl⟩, fun _ _ hf => Or.inr hf⟩

theorem Touches.trans {name : String} {m m1 m2 : Module}
    (h1 : Touches name m m1) (h2 : Touches name m1 m2) : Touches name m m2 := by
  refine ⟨?_, ?_⟩
  · intro i f hf
    obtain ⟨f1, hf1, hn1, hk1⟩ := h1.1 i f hf
    obtain ⟨f2, hf2, hn2, hk2⟩ := h2.1 i f1 hf1
    refine ⟨f2, hf2, hn2.trans hn1, ?_⟩
    intro hne
    have e1 := hk1 hne
    subst e1
    exact hk2 hne
  · intro i f2 hf2
    rcases h2.2 i f2 hf2 with hn | hf1
    · exact Or.inl hn
    · exact h1.2 i f2 hf1

theorem Touches.nameAt {name : String} {m m1 : Module} (h : Touches name m m1)
    {i : Nat} {n : String} (hn : NameAt m i n) : NameAt m1 i n := by
  obtain ⟨f, hf, hfn⟩ := hn
  obtain ⟨f1, hf1, hn1, _⟩ := h.1 i f hf
  exact ⟨f1, hf1, hn1.trans hfn⟩

/-- Rewriting the function at a handle called `name`, keeping its name. -/
theorem Touches.set {name : String} {m : Module} {h : Nat} {f f1 : Function}
    (hf : m.functions[h]? = some f) (hname : f.name = name) (hname1 : f1.name = name) :
    Touches name m { functions := m.functions.set h f1 } := by
  have hlt : h < m.functions.length := (List.getElem?_eq_some_iff.mp hf).1
  refine ⟨?_, ?_⟩
  · intro i g hg
    by_cases hi : h = i
    · subst hi
      rw [hf] at hg
      cases hg
      refine ⟨f1, by simp [List.getElem?_set, hlt], hname1.trans hname.symm, ?_⟩
      intro hne
      exact absurd hname hne
    · exact ⟨g, by simp [List.getElem?_set, hi, hg], rfl, fun _ => rfl⟩
  · intro i g hg
    by_cases hi : h = i
    · subst hi
      simp [List.getElem?_set, hlt] at hg
      subst hg
      exact Or.inl hname1
    · right
      simpa [List.getElem?_set, hi] using hg

theorem Touches.append {name : String} {m : Module} {f1 : Function} (hname1 : f1.name = name) :
    Touches name m { functions := m.functions ++ [f1] } := by
  refine ⟨?_, ?_⟩
  · intro i g hg
    have hlt : i < m.functions.length := (List.getElem?_eq_some_iff.mp hg).1
    exact ⟨g, by simp [List.getElem?_append_left hlt, hg], rfl, fun _ => rfl⟩
  · intro i g hg
    by_cases hlt : i < m.functions.length
    · right
      simpa [List.getElem?_append_left hlt] using hg
    · left
      have hge : m.functions.length ≤ i := Nat.le_of_not_lt hlt
      simp [List.getElem?_append_right hge] at hg
      by_cases h0 : i - m.functions.length = 0
      · simp [h0] at hg
        subst hg
        exact hname1
      · obtain ⟨k, hk⟩ := Nat.exists_eq_succ_of_ne_zero h0
        simp [hk] at hg

/-- What a successful `CreateFunctionDefinition` leaves behind. -/
theorem CreateFunctionDefinition_facts {m m1 : Module} {name : String} {h : Nat}
    (hc : CreateFunctionDefinition m name = some (h, m1)) :
    Touches name m m1 ∧
    ∃ f0, m1.functions[h]? = some (applyAbi f0) ∧ f0.name = name ∧ f0.function_type = abiType ∧
      (m.functions[h]? = some f0 ∨
        ((∀ f ∈ m.functions, f.name ≠ name) ∧ f0 = Function.Create abiType name)) := by
  rw [CreateFunctionDefinition_eq] at hc
  cases hf : findNamed name m.functions with
  | none =>
    simp only [hf, Option.some.injEq, Prod.mk.injEq] at hc
    obtain ⟨rfl, rfl⟩ := hc
    refine ⟨Touches.append (by simp [Function.Create]), Function.Create abiType name, ?_, rfl, rfl,
      Or.inr ⟨findNamed_none hf, rfl⟩⟩
    simp
  | some p =>
    obtain ⟨i, f⟩ := p
    obtain ⟨hi, hn⟩ := findNamed_some hf
    have hlt : i < m.functions.length := (List.getElem?_eq_some_iff.mp hi).1
    simp only [hf] at hc
    split_ifs at hc with ht
    simp only [Option.some.injEq, Prod.mk.injEq] at hc
    obtain ⟨rfl, rfl⟩ := hc
    refine ⟨Touches.set hi hn (by simp [hn]), f, ?_, hn, ht, Or.inl hi⟩
    simp [List.getElem?_set, hlt]

/-! ## The methods, one call at a time -/

@[simp] theorem withBody_name (f : Function) (b : List BasicBlock) :
    (f.withBody b).name = f.name := rfl

@[simp] theorem withBody_blocks (f : Function) (b : List BasicBlock) :
    (f.withBody b).blocks = b := rfl

@[simp] theorem withBody_withBody (f : Function) (b c : List BasicBlock) :
    (f.withBody b).withBody c = f.withBody c := rfl

theorem addStub_eq (f : Function) :
    CreateRetVoid (BasicBlock.Create "entry" f).2 (BasicBlock.Create "entry" f).1
      = f.withBody (f.blocks ++ stubBody) := by
  simp [BasicBlock.Create, CreateRetVoid, BasicBlock.push, stubBody]

theorem OptimizeFunction_facts {env : Env} {g g1 : ModuleGenerator} {h : Nat}
    (ho : OptimizeFunction env g h = some g1) :
    ∃ f body, g.gen_module_.functions[h]? = some f ∧
      env.run (OptimizeFunction.passes env) f = some body ∧
      g1.gen_module_ = { functions := g.gen_module_.functions.set h (f.withBody body) } ∧
      g1.functions_ = g.functions_ ∧ g1.log = g.log ++ [Event.OptimizeFunction h] := by
  unfold OptimizeFunction at ho
  simp only [ModuleGenerator.emit] at ho
  cases hf : g.gen_module_.functions[h]? with
  | none => simp [hf] at ho
  | some f =>
    simp only [hf] at ho
    cases hr : env.run (OptimizeFunction.passes env) f with
    | none => simp [hr] at ho
    | some body =>
      simp only [hr, Option.some.injEq] at ho
      subst ho
      exact ⟨f, body, rfl, hr, by simp [Module.update, hf], rfl, rfl⟩

theorem AddMissingImport_facts {env : Env} {g g1 : ModuleGenerator} {fn : FunctionSymbol}
    (ha : AddMissingImport env g fn = some g1) :
    Touches fn.name g.gen_module_ g1.gen_module_ ∧ g1.functions_ = g.functions_ ∧
    ∃ h f0 body, g1.log = g.log ++ [Event.AddMissingImport fn, Event.OptimizeFunction h] ∧
      f0.name = fn.name ∧
      (g.gen_module_.functions[h]? = some f0 ∨
        ((∀ f ∈ g.gen_module_.functions, f.name ≠ fn.name) ∧
          f0 = Function.Create abiType fn.name)) ∧
      env.run (OptimizeFunction.passes env)
        ((applyAbi f0).withBody (f0.blocks ++ stubBody)) = some body ∧
      g1.gen_module_.functions[h]? = some ((applyAbi f0).withBody body) := by
  unfold AddMissingImport at ha
  simp only [ModuleGenerator.emit] at ha
  cases hc : CreateFunctionDefinition g.gen_module_ fn.name with
  | none => simp [hc] at ha
  | some p =>
    obtain ⟨h, m1⟩ := p
    simp only [hc] at ha
    obtain ⟨ht, f0, hm1, hn0, _, hsrc⟩ := CreateFunctionDefinition_facts hc
    have hlt : h < m1.functions.length := (List.getElem?_eq_some_iff.mp hm1).1
    obtain ⟨f, body, hf, hr, hmod, hreg, hlog⟩ := OptimizeFunction_facts ha
    simp only [Module.update, hm1, addStub_eq, List.getElem?_set, hlt, if_true,
      Option.some.injEq] at hf
    simp only [Module.update, hm1, addStub_eq] at hmod
    subst hf
    simp only [applyAbi_blocks] at hr hmod
    refine ⟨?_, hreg, h, f0, body, ?_, hn0, hsrc, hr, ?_⟩
    · refine ht.trans ?_
      rw [hmod]
      simp only [List.set_set]
      exact Touches.set hm1 (by simp [hn0]) (by simp [hn0])
    · simpa using hlog
    · rw [hmod]
      simp [List.getElem?_set, hlt]

theorem PrepareFunction_facts {g g1 : ModuleGenerator} {fn : FunctionSymbol}
    (hp : PrepareFunction g fn = some g1) :
    Touches fn.name g.gen_module_ g1.gen_module_ ∧
    g1.log = g.log ++ [Event.PrepareFunction fn] ∧
    ∃ c : CodegenFunction, c.symbol = fn ∧ NameAt g1.gen_module_ c.function fn.name ∧
      g1.functions_ = mapInsert fn.start_address c g.functions_ := by
  unfold PrepareFunction at hp
  simp only [ModuleGenerator.emit] at hp
  cases hc : CreateFunctionDefinition g.gen_module_ fn.name with
  | none => simp [hc] at hp
  | some p =>
    obtain ⟨h, m1⟩ := p
    simp only [hc] at hp
    obtain ⟨ht, f0, hm1, hn0, _, _⟩ := CreateFunctionDefinition_facts hc
    simp only [hm1, Option.some.injEq] at hp
    subst hp
    exact ⟨ht, rfl, _, rfl, ⟨applyAbi f0, hm1, by simp [hn0]⟩, rfl⟩

/-- What one round of the declaration loop does, by classification. -/
theorem declare_facts {env : Env} {g g1 : ModuleGenerator} {fn : FunctionSymbol}
    (hd : declare env g fn = some g1) :
    Touches fn.name g.gen_module_ g1.gen_module_ ∧
    ((fn.type = FunctionSymbolType.User ∧ g1.log = g.log ++ [Event.PrepareFunction fn] ∧
        ∃ c : CodegenFunction, c.symbol = fn ∧ NameAt g1.gen_module_ c.function fn.name ∧
          g1.functions_ = mapInsert fn.start_address c g.functions_) ∨
     (fn.type = FunctionSymbolType.Kernel ∧ hasImplementedExport fn = true ∧
        g1 = g.emit (Event.AddPresentImport fn)) ∨
     (fn.type = FunctionSymbolType.Kernel ∧ hasImplementedExport fn = false ∧
        g1.functions_ = g.functions_ ∧
        ∃ h f0 body, g1.log = g.log ++ [Event.AddMissingImport fn, Event.OptimizeFunction h] ∧
          f0.name = fn.name ∧
          (g.gen_module_.functions[h]? = some f0 ∨
            ((∀ f ∈ g.gen_module_.functions, f.name ≠ fn.name) ∧
              f0 = Function.Create abiType fn.name)) ∧
          env.run (OptimizeFunction.passes env)
            ((applyAbi f0).withBody (f0.blocks ++ stubBody)) = some body ∧
          g1.gen_module_.functions[h]? = some ((applyAbi f0).withBody body))) := by
  unfold declare at hd
  cases ht : fn.type with
  | User =>
    simp only [ht] at hd
    obtain ⟨h1, h2, h3⟩ := PrepareFunction_facts hd
    exact ⟨h1, Or.inl ⟨rfl, h2, h3⟩⟩
  | Kernel =>
    simp only [ht] at hd
    split_ifs at hd with hi
    · simp only [AddPresentImport, Option.some.injEq] at hd
      subst hd
      exact ⟨Touches.refl _ _, Or.inr (Or.inl ⟨rfl, hi, rfl⟩)⟩
    · obtain ⟨h1, h2, h3⟩ := AddMissingImport_facts hd
      exact ⟨h1, Or.inr (Or.inr ⟨rfl, by simpa using hi, h2, h3⟩)⟩
  | Unknown =>
    simp [ht, XEASSERTALWAYS] at hd

/-! ## The ordered map -/

theorem KeysAscend.tail {α : Type} {p : Nat × α} {m : List (Nat × α)}
    (h : KeysAscend (p :: m)) : KeysAscend m := by
  unfold KeysAscend at h ⊢
  simp only [List.map_cons, List.pairwise_cons] at h
  exact h.2

theorem KeysAscend.head_lt {α : Type} {p : Nat × α} {m : List (Nat × α)}
    (h : KeysAscend (p :: m)) : ∀ q ∈ m, p.1 < q.1 := by
  unfold KeysAscend at h
  simp only [List.map_cons, List.pairwise_cons, List.mem_map, forall_exists_index, and_imp] at h
  intro q hq
  exact h.1 q.1 q hq rfl

theorem mem_mapInsert {α : Type} {k : Nat} {v : α} {m : List (Nat × α)} {q : Nat × α}
    (hq : q ∈ mapInsert k v m) : q = (k, v) ∨ q ∈ m := by
  induction m with
  | nil => simp [mapInsert] at hq; exact Or.inl hq
  | cons p rest ih =>
    obtain ⟨k1, v1⟩ := p
    unfold mapInsert at hq
    split_ifs at hq with h1 h2
    · rcases List.mem_cons.mp hq with h | h
      · exact Or.inl h
      · exact Or.inr h
    · exact Or.inr hq
    · rcases List.mem_cons.mp hq with h | h
      · exact Or.inr (by simp [h])
      · rcases ih h with h | h
        · exact Or.inl h
        · exact Or.inr (List.mem_cons_of_mem _ h)

theorem KeysAscend.mapInsert {α : Type} {k : Nat} {v : α} {m : List (Nat × α)}
    (h : KeysAscend m) : KeysAscend (mapInsert k v m) := by
  induction m with
  | nil => simp [Xenia.mapInsert, KeysAscend]
  | cons p rest ih =>
    obtain ⟨k1, v1⟩ := p
    have hlt := h.head_lt
    have htl := h.tail
    unfold Xenia.mapInsert
    split_ifs with h1 h2
    · unfold KeysAscend at h ⊢
      simp only [List.map_cons, List.pairwise_cons] at h ⊢
      refine ⟨?_, h⟩
      intro a ha
      rcases List.mem_cons.mp ha with rfl | ha
      · exact h1
      · exact lt_trans h1 (h.1 a ha)
    · exact h
    · have ih1 := ih htl
      unfold KeysAscend at ih1 ⊢
      simp only [List.map_cons, List.pairwise_cons, List.mem_map, forall_exists_index,
        and_imp] at ih1 ⊢
      refine ⟨?_, ih1⟩
      rintro a q hq rfl
      rcases mem_mapInsert hq with rfl | hq
      · simp only
        omega
      · exact hlt q hq

theorem mapFind_none_of_lt {α : Type} {k : Nat} {m : List (Nat × α)}
    (h : ∀ q ∈ m, k < q.1) : mapFind k m = none := by
  induction m with
  | nil => rfl
  | cons p rest ih =>
    obtain ⟨k1, v1⟩ := p
    have h1 : k < k1 := h (k1, v1) (List.mem_cons_self _ _)
    unfold mapFind
    rw [if_neg (by omega)]
    exact ih (fun q hq => h q (List.mem_cons_of_mem _ hq))

/-- First write wins: the value under `k` after `insert` is the old one when
there was one, the new one otherwise. -/
theorem mapFind_mapInsert_self {α : Type} {k : Nat} {v : α} {m : List (Nat × α)}
    (h : KeysAscend m) : mapFind k (mapInsert k v m) = some ((mapFind k m).getD v) := by
  induction m with
  | nil => simp [mapInsert, mapFind]
  | cons p rest ih =>
    obtain ⟨k1, v1⟩ := p
    unfold mapInsert
    split_ifs with h1 h2
    · have hn : mapFind k ((k1, v1) :: rest) = none := by
        apply mapFind_none_of_lt
        intro q hq
        rcases List.mem_cons.mp hq with rfl | hq
        · exact h1
        · exact lt_trans h1 (h.head_lt q hq)
      rw [hn]
      simp [mapFind]
    · subst h2
      simp [mapFind]
    · have hne : ¬ k1 = k := fun e => h2 e.symm
      simp [mapFind, hne, ih h.tail]

theorem mapFind_mapInsert_ne {α : Type} {k a : Nat} {v : α} {m : List (Nat × α)}
    (hne : k ≠ a) : mapFind a (mapInsert k v m) = mapFind a m := by
  induction m with
  | nil => simp [mapInsert, mapFind, hne]
  | cons p rest ih =>
    obtain ⟨k1, v1⟩ := p
    unfold mapInsert
    split_ifs with h1 h2
    · simp [mapFind, hne]
    · rfl
    · simp [mapFind, ih]

theorem mapFind_mem {α : Type} {k : Nat} {v : α} {m : List (Nat × α)}
    (h : mapFind k m = some v) : (k, v) ∈ m := by
  induction m with
  | nil => simp [mapFind] at h
  | cons p rest ih =>
    obtain ⟨k1, v1⟩ := p
    unfold mapFind at h
    split_ifs at h with h1
    · simp at h
      subst h1 h
      exact List.mem_cons_self _ _
    · exact List.mem_cons_of_mem _ (ih h)

theorem mapFind_of_mem {α : Type} {k : Nat} {v : α} {m : List (Nat × α)}
    (hs : KeysAscend m) (h : (k, v) ∈ m) : mapFind k m = some v := by
  induction m with
  | nil => simp at h
  | cons p rest ih =>
    obtain ⟨k1, v1⟩ := p
    rcases List.mem_cons.mp h with e | h
    · simp only [Prod.mk.injEq] at e
      obtain ⟨rfl, rfl⟩ := e
      simp [mapFind]
    · have hlt : k1 < k := hs.head_lt (k, v) h
      unfold mapFind
      rw [if_neg (by omega)]
      exact ih hs.tail h

/-- An ascending registry holds at most one entry per key. -/
theorem KeysAscend.filter_key_length {α : Type} {m : List (Nat × α)} (hs : KeysAscend m)
    (a : Nat) : (m.filter (fun kv => kv.1 = a)).length = if (mapFind a m).isSome then 1 else 0 := by
  induction m with
  | nil => simp [mapFind]
  | cons p rest ih =>
    obtain ⟨k1, v1⟩ := p
    by_cases h1 : k1 = a
    · subst h1
      have hn : mapFind k1 rest = none :=
        mapFind_none_of_lt (fun q hq => hs.head_lt q hq)
      have := ih hs.tail
      simp [hn] at this
      simp [mapFind, List.filter_cons]
      exact this
    · have := ih hs.tail
      simp [mapFind, List.filter_cons, h1, this]

/-! ## The registry across the declaration loop -/

theorem declare_registry {env : Env} {g g1 : ModuleGenerator} {fn : FunctionSymbol}
    (hs : KeysAscend g.functions_) (hd : declare env g fn = some g1) :
    KeysAscend g1.functions_ ∧
    ∀ a, (mapFind a g1.functions_).map (fun c => c.symbol) =
      ((mapFind a g.functions_).map (fun c => c.symbol)).or
        (if isUserAt a fn then some fn else none) := by
  obtain ⟨_, hcase⟩ := declare_facts hd
  rcases hcase with ⟨hty, _, c, hc, _, hreg⟩ | ⟨hty, _, rfl⟩ | ⟨hty, _, hreg, _⟩
  · rw [hreg]
    refine ⟨hs.mapInsert, ?_⟩
    intro a
    by_cases ha : fn.start_address = a
    · subst ha
      rw [mapFind_mapInsert_self hs]
      cases hm : mapFind fn.start_address g.functions_ <;> simp [isUserAt, hty, hc]
    · rw [mapFind_mapInsert_ne ha]
      simp [isUserAt, ha]
  · refine ⟨hs, ?_⟩
    intro a
    simp [ModuleGenerator.emit, isUserAt, hty]
  · rw [hreg]
    refine ⟨hs, ?_⟩
    intro a
    simp [isUserAt, hty]

/-- The registry after the declaration loop: an address already registered
keeps its record; any other address gets the first User symbol that starts
there. -/
theorem declareAll_registry {env : Env} {fns : List FunctionSymbol} {g g1 : ModuleGenerator}
    (hs : KeysAscend g.functions_) (hd : declareAll env g fns = some g1) :
    KeysAscend g1.functions_ ∧
    ∀ a, (mapFind a g1.functions_).map (fun c => c.symbol) =
      ((mapFind a g.functions_).map (fun c => c.symbol)).or (fns.find? (isUserAt a)) := by
  induction fns generalizing g with
  | nil =>
    simp only [declareAll, Option.some.injEq] at hd
    subst hd
    exact ⟨hs, fun a => by simp⟩
  | cons fn rest ih =>
    unfold declareAll at hd
    cases hstep : declare env g fn with
    | none => simp [hstep] at hd
    | some g2 =>
      simp only [hstep] at hd
      obtain ⟨hs2, h2⟩ := declare_registry hs hstep
      obtain ⟨hs1, h1⟩ := ih hs2 hd
      refine ⟨hs1, ?_⟩
      intro a
      rw [h1 a, h2 a, List.find?_cons]
      cases hm : mapFind a g.functions_ with
      | some c => simp
      | none =>
        cases hu : isUserAt a fn <;> simp

/-! ## The log across the two loops -/

theorem declare_nameAt {env : Env} {g g1 : ModuleGenerator} {fn : FunctionSymbol}
    (hd : declare env g fn = some g1) {h : Nat} {n : String}
    (hn : NameAt g.gen_module_ h n) : NameAt g1.gen_module_ h n :=
  (declare_facts hd).1.nameAt hn

theorem declareAll_nameAt {env : Env} {fns : List FunctionSymbol} {g g1 : ModuleGenerator}
    (hd : declareAll env g fns = some g1) {h : Nat} {n : String}
    (hn : NameAt g.gen_module_ h n) : NameAt g1.gen_module_ h n := by
  induction fns generalizing g with
  | nil =>
    simp only [declareAll, Option.some.injEq] at hd
    subst hd
    exact hn
  | cons fn rest ih =>
    unfold declareAll at hd
    cases hstep : declare env g fn with
    | none => simp [hstep] at hd
    | some g2 =>
      simp only [hstep] at hd
      exact ih hd (declare_nameAt hstep hn)

/-- The log and the handles after the declaration loop. -/
theorem declareAll_log {env : Env} {fns : List FunctionSymbol} {g g1 : ModuleGenerator}
    (hd : declareAll env g fns = some g1) :
    ∃ D : List Event, g1.log = g.log ++ D ∧ D.filterMap Event.declares = fns ∧
      (∀ e ∈ D, e.inDeclarationPass = true) ∧
      (∀ h, Event.OptimizeFunction h ∈ D →
        ∃ t ∈ fns, t.type = FunctionSymbolType.Kernel ∧ NameAt g1.gen_module_ h t.name) ∧
      (∀ kv ∈ g1.functions_, kv ∈ g.functions_ ∨
        (kv.2.symbol ∈ fns ∧ kv.2.symbol.type = FunctionSymbolType.User ∧
          kv.1 = kv.2.symbol.start_address ∧
          NameAt g1.gen_module_ kv.2.function kv.2.symbol.name)) := by
  induction fns generalizing g with
  | nil =>
    simp only [declareAll, Option.some.injEq] at hd
    subst hd
    exact ⟨[], by simp, rfl, by simp, by simp, fun kv hkv => Or.inl hkv⟩
  | cons fn rest ih =>
    unfold declareAll at hd
    cases hstep : declare env g fn with
    | none => simp [hstep] at hd
    | some g2 =>
      simp only [hstep] at hd
      obtain ⟨D, hlog, hdecl, hphase, hopt, hreg⟩ := ih hd
      obtain ⟨_, hcase⟩ := declare_facts hstep
      have hreg1 : ∀ kv ∈ g1.functions_, kv ∈ g2.functions_ ∨
          (kv.2.symbol ∈ fn :: rest ∧ kv.2.symbol.type = FunctionSymbolType.User ∧
            kv.1 = kv.2.symbol.start_address ∧
            NameAt g1.gen_module_ kv.2.function kv.2.symbol.name) := by
        intro kv hkv
        rcases hreg kv hkv with h | ⟨h1, h2⟩
        · exact Or.inl h
        · exact Or.inr ⟨List.mem_cons_of_mem _ h1, h2⟩
      have hopt1 : ∀ h, Event.OptimizeFunction h ∈ D →
          ∃ t ∈ fn :: rest, t.type = FunctionSymbolType.Kernel ∧
            NameAt g1.gen_module_ h t.name := by
        intro h hh
        obtain ⟨t, ht, hk, hn⟩ := hopt h hh
        exact ⟨t, List.mem_cons_of_mem _ ht, hk, hn⟩
      rcases hcase with ⟨hty, hl, c, hc, hname, hins⟩ | ⟨hty, _, rfl⟩ |
          ⟨hty, _, hsame, h0, f0, body, hl, _, _, _, hat⟩
      · refine ⟨Event.PrepareFunction fn :: D, ?_, ?_, ?_, ?_, ?_⟩
        · rw [hlog, hl]; simp
        · simp [Event.declares, hdecl]
        · intro e he
          rcases List.mem_cons.mp he with rfl | he
          · rfl
          · exact hphase e he
        · intro h hh
          rcases List.mem_cons.mp hh with e | hh
          · cases e
          · exact hopt1 h hh
        · intro kv hkv
          rcases hreg1 kv hkv with h | h
          · rw [hins] at h
            rcases mem_mapInsert h with rfl | h
            · right
              refine ⟨by simp [hc], by simp [hc, hty], by simp [hc], ?_⟩
              simp only [hc]
              exact declareAll_nameAt hd hname
            · exact Or.inl h
          · exact Or.inr h
      · refine ⟨Event.AddPresentImport fn :: D, ?_, ?_, ?_, ?_, ?_⟩
        · rw [hlog]; simp [ModuleGenerator.emit]
        · simp [Event.declares, hdecl]
        · intro e he
          rcases List.mem_cons.mp he with rfl | he
          · rfl
          · exact hphase e he
        · intro h hh
          rcases List.mem_cons.mp hh with e | hh
          · cases e
          · exact hopt1 h hh
        · intro kv hkv
          rcases hreg1 kv hkv with h | h
          · exact Or.inl h
          · exact Or.inr h
      · refine ⟨Event.AddMissingImport fn :: Event.OptimizeFunction h0 :: D, ?_, ?_, ?_, ?_, ?_⟩
        · rw [hlog, hl]; simp
        · simp [Event.declares, hdecl]
        · intro e he
          rcases List.mem_cons.mp he with rfl | he
          · rfl
          · rcases List.mem_cons.mp he with rfl | he
            · rfl
            · exact hphase e he
        · intro h hh
          rcases List.mem_cons.mp hh with e | hh
          · cases e
          · rcases List.mem_cons.mp hh with e | hh
            · cases e
              refine ⟨fn, List.mem_cons_self _ _, hty, ?_⟩
              exact declareAll_nameAt hd ⟨_, hat, by simp; assumption⟩
            · exact hopt1 h hh
        · intro kv hkv
          rcases hreg1 kv hkv with h | h
          · rw [hsame] at h
            exact Or.inl h
          · exact Or.inr h

/-- The build loop leaves the registry alone and logs, entry by entry, the
calls of `BuildFunction`. -/
theorem buildAll_facts {env : Env} {reg : List (Nat × CodegenFunction)}
    {g g1 : ModuleGenerator} (hb : buildAll env g reg = some g1) :
    g1.functions_ = g.functions_ ∧ g1.log = g.log ++ reg.flatMap buildEvents := by
  induction reg generalizing g with
  | nil =>
    simp only [buildAll, Option.some.injEq] at hb
    subst hb
    simp
  | cons kv rest ih =>
    obtain ⟨k, cgf⟩ := kv
    unfold buildAll at hb
    cases hstep : BuildFunction env g cgf with
    | none => simp [hstep] at hb
    | some g2 =>
      simp only [hstep] at hb
      obtain ⟨h1, h2⟩ := ih hb
      unfold BuildFunction at hstep
      obtain ⟨_, _, _, _, _, hreg, hlog⟩ := OptimizeFunction_facts hstep
      simp only [ModuleGenerator.emit] at hreg hlog
      refine ⟨h1.trans hreg, ?_⟩
      rw [h2, hlog]
      simp [buildEvents]

/-! ## Generate: the registry -/

/-- The stages of a completed `Generate`. -/
theorem Generate_stages {env : Env} {sdb : SymbolDatabase} {g g1 : ModuleGenerator} {r : Int}
    (hg : Generate env sdb g = some (r, g1)) :
    r = 0 ∧ ∃ g2 g3,
      (if sdb.GetAllFunctions.1 = 0
        then declareAll env (g.emit Event.createCompileUnit) sdb.GetAllFunctions.2
        else some (g.emit Event.createCompileUnit)) = some g2 ∧
      buildAll env g2 g2.functions_ = some g3 ∧ g1 = g3.emit Event.finalize := by
  unfold Generate at hg
  simp only at hg
  cases h2 : (if sdb.GetAllFunctions.1 = 0
        then declareAll env (g.emit Event.createCompileUnit) sdb.GetAllFunctions.2
        else some (g.emit Event.createCompileUnit)) with
  | none => simp [h2] at hg
  | some g2 =>
    simp only [h2] at hg
    cases h3 : buildAll env g2 g2.functions_ with
    | none => simp [h3] at hg
    | some g3 =>
      simp only [h3, Option.some.injEq, Prod.mk.injEq] at hg
      exact ⟨hg.1.symm, g2, g3, rfl, h3, hg.2.symm⟩

theorem KeysAscend.nil {α : Type} : KeysAscend ([] : List (Nat × α)) := by
  simp [KeysAscend]

/-- The registry of a fresh generator after a `Generate` whose retrieval
succeeded. -/
theorem Generate_registry {env : Env} {sdb : SymbolDatabase} {m : Module}
    {g1 : ModuleGenerator} {r : Int} (hok : sdb.GetAllFunctions.1 = 0)
    (hg : Generate env sdb (ModuleGenerator.new m) = some (r, g1)) :
    KeysAscend g1.functions_ ∧
    ∀ a, (mapFind a g1.functions_).map (fun c => c.symbol) =
      sdb.GetAllFunctions.2.find? (isUserAt a) := by
  obtain ⟨_, g2, g3, h2, h3, rfl⟩ := Generate_stages hg
  rw [if_pos hok] at h2
  obtain ⟨hs, hf⟩ := declareAll_registry (g := (ModuleGenerator.new m).emit Event.createCompileUnit)
    KeysAscend.nil h2
  obtain ⟨hreg, _⟩ := buildAll_facts h3
  simp only [ModuleGenerator.emit, hreg]
  refine ⟨hs, fun a => ?_⟩
  rw [hf a]
  simp [ModuleGenerator.emit, ModuleGenerator.new, mapFind]

theorem find?_isUserAt_isSome (fns : List FunctionSymbol) (a : Nat) :
    (fns.find? (isUserAt a)).isSome ↔
      ∃ s ∈ fns, s.type = FunctionSymbolType.User ∧ s.start_address = a := by
  simp [List.find?_isSome, isUserAt]

/-- C1. After `Generate` on a freshly constructed generator whose catalog
retrieval succeeded, `GetCodegenFunction(a)` returns a record exactly when some
User symbol of the catalog starts at `a`; it returns null at the start address
of every Kernel symbol that no User symbol shares, implemented or not. -/
theorem GetCodegenFunction_isSome_iff_user (env : Env) (sdb : SymbolDatabase) (m : Module)
    (r : Int) (g1 : ModuleGenerator) (hok : sdb.GetAllFunctions.1 = 0)
    (hg : Generate env sdb (ModuleGenerator.new m) = some (r, g1)) :
    (∀ a, (GetCodegenFunction g1 a).isSome ↔
      ∃ s ∈ sdb.GetAllFunctions.2, s.type = FunctionSymbolType.User ∧ s.start_address = a) ∧
    (∀ k ∈ sdb.GetAllFunctions.2, k.type = FunctionSymbolType.Kernel →
      (¬ ∃ s ∈ sdb.GetAllFunctions.2,
        s.type = FunctionSymbolType.User ∧ s.start_address = k.start_address) →
      GetCodegenFunction g1 k.start_address = none) := by
  obtain ⟨_, hf⟩ := Generate_registry hok hg
  have key : ∀ a, (GetCodegenFunction g1 a).isSome ↔
      ∃ s ∈ sdb.GetAllFunctions.2, s.type = FunctionSymbolType.User ∧ s.start_address = a := by
    intro a
    rw [← find?_isUserAt_isSome, ← hf a]
    simp [GetCodegenFunction]
  refine ⟨key, ?_⟩
  intro k _ _ hno
  have := (key k.start_address).not.mpr hno
  simpa using this

theorem GetCodegenFunction_isSome_iff_user_witness :
    scenarioDb.GetAllFunctions.1 = 0 ∧
    Generate plainEnv scenarioDb (ModuleGenerator.new emptyModule) = some (0, scenarioResult) ∧
    GetCodegenFunction scenarioResult KeBugCheck.start_address = none ∧
    GetCodegenFunction scenarioResult NtClose.start_address = none :=
  have h := GetCodegenFunction_isSome_iff_user plainEnv scenarioDb emptyModule 0 scenarioResult rfl rfl
  ⟨rfl, rfl,
    h.2 KeBugCheck (by decide) rfl (by decide),
    h.2 NtClose (by decide) rfl (by decide)⟩

/-! ## Generate: duplicates -/

theorem mapInsert_of_isSome {α : Type} {k : Nat} {v : α} {m : List (Nat × α)}
    (hs : KeysAscend m) (h : (mapFind k m).isSome) : mapInsert k v m = m := by
  induction m with
  | nil => simp [mapFind] at h
  | cons p rest ih =>
    obtain ⟨k1, v1⟩ := p
    unfold mapInsert
    split_ifs with h1 h2
    · have hn : mapFind k ((k1, v1) :: rest) = none := by
        apply mapFind_none_of_lt
        intro q hq
        rcases List.mem_cons.mp hq with rfl | hq
        · exact h1
        · exact lt_trans h1 (hs.head_lt q hq)
      simp [hn] at h
    · rfl
    · have hne : ¬ k1 = k := fun e => h2 e.symm
      simp only [mapFind, hne, if_false] at h
      rw [ih hs.tail h]

/-- C2. First write wins: when two or more User symbols of the catalog share
the start address `a`, `Generate` still returns 0, the registry afterwards
holds exactly one entry for `a`, and the symbol of `GetCodegenFunction(a)` is
the first of them in catalog order; a `PrepareFunction` for an address already
registered leaves the registry as it was. -/
theorem first_write_wins (env : Env) (sdb : SymbolDatabase) (m : Module)
    (r : Int) (g1 : ModuleGenerator) (a : Nat) (hok : sdb.GetAllFunctions.1 = 0)
    (hg : Generate env sdb (ModuleGenerator.new m) = some (r, g1))
    (hdup : 2 ≤ (sdb.GetAllFunctions.2.filter (isUserAt a)).length) :
    r = 0 ∧
    (g1.functions_.filter (fun kv => kv.1 = a)).length = 1 ∧
    (∃ c first, GetCodegenFunction g1 a = some c ∧ c.symbol = first ∧
      sdb.GetAllFunctions.2.find? (isUserAt a) = some first) ∧
    (∀ (g g2 : ModuleGenerator) (fn : FunctionSymbol), KeysAscend g.functions_ →
      (GetCodegenFunction g fn.start_address).isSome → PrepareFunction g fn = some g2 →
      g2.functions_ = g.functions_) := by
  obtain ⟨hs, hf⟩ := Generate_registry hok hg
  have hex : ∃ s, s ∈ sdb.GetAllFunctions.2.filter (isUserAt a) := by
    apply List.exists_mem_of_length_pos
    omega
  obtain ⟨s, hsm⟩ := hex
  have hsome : (sdb.GetAllFunctions.2.find? (isUserAt a)).isSome := by
    rw [List.find?_isSome]
    exact ⟨s, (List.mem_filter.mp hsm).1, (List.mem_filter.mp hsm).2⟩
  obtain ⟨first, hfirst⟩ := Option.isSome_iff_exists.mp hsome
  have hfa := hf a
  rw [hfirst] at hfa
  cases hc : mapFind a g1.functions_ with
  | none => simp [hc] at hfa
  | some c =>
    simp only [hc, Option.map_some', Option.some.injEq] at hfa
    refine ⟨(Generate_stages hg).1, ?_, ⟨c, first, hc, hfa, hfirst⟩, ?_⟩
    · rw [hs.filter_key_length a, hc]
      simp
    · intro g g2 fn hsg hpresent hp
      obtain ⟨_, _, c2, _, _, hreg⟩ := PrepareFunction_facts hp
      rw [hreg]
      exact mapInsert_of_isSome hsg hpresent

theorem first_write_wins_witness :
    duplicateDb.GetAllFunctions.1 = 0 ∧
    Generate plainEnv duplicateDb (ModuleGenerator.new emptyModule) = some (0, duplicateResult) ∧
    2 ≤ (duplicateDb.GetAllFunctions.2.filter (isUserAt 0x1000)).length ∧
    (duplicateResult.functions_.filter (fun kv => kv.1 = 0x1000)).length = 1 :=
  ⟨rfl, rfl, by decide,
    (first_write_wins plainEnv duplicateDb emptyModule 0 duplicateResult 0x1000 rfl rfl
      (by decide)).2.1⟩

/-! ## Generate: the order of the phases, and the pass list -/

theorem count_flatMap_buildEvents_createCompileUnit (reg : List (Nat × CodegenFunction)) :
    (reg.flatMap buildEvents).count Event.createCompileUnit = 0 := by
  induction reg with
  | nil => simp
  | cons kv rest ih =>
    simp only [List.flatMap_cons, List.count_append, ih]
    simp [buildEvents, List.count_cons]

theorem count_flatMap_buildEvents_finalize (reg : List (Nat × CodegenFunction)) :
    (reg.flatMap buildEvents).count Event.finalize = 0 := by
  induction reg with
  | nil => simp
  | cons kv rest ih =>
    simp only [List.flatMap_cons, List.count_append, ih]
    simp [buildEvents, List.count_cons]

theorem count_eq_zero_of_inDeclarationPass {D : List Event} {e : Event}
    (hD : ∀ x ∈ D, x.inDeclarationPass = true) (he : e.inDeclarationPass = false) :
    D.count e = 0 := by
  rw [List.count_eq_zero]
  intro hmem
  have := hD e hmem
  rw [he] at this
  cases this

/-- C9. Every run of `Generate` that returns has logged, after what was logged
before it: one `createCompileUnit` first; then the declaration pass, whose
per-symbol calls (`PrepareFunction`, `AddPresentImport`, `AddMissingImport`)
are made for the retrieved symbols in catalog order, together with the
optimizer runs of import stubs and nothing else; then the calls of
`BuildFunction` for the registry entries in registry order; then one
`finalize`, last. -/
theorem Generate_phase_order (env : Env) (sdb : SymbolDatabase) (g : ModuleGenerator)
    (r : Int) (g1 : ModuleGenerator) (hg : Generate env sdb g = some (r, g1)) :
    ∃ D run : List Event,
      g1.log = g.log ++ run ∧
      run = Event.createCompileUnit ::
        (D ++ g1.functions_.flatMap buildEvents ++ [Event.finalize]) ∧
      D.filterMap Event.declares =
        (if sdb.GetAllFunctions.1 = 0 then sdb.GetAllFunctions.2 else []) ∧
      (∀ e ∈ D, e.inDeclarationPass = true) ∧
      run.count Event.createCompileUnit = 1 ∧ run.count Event.finalize = 1 := by
  obtain ⟨_, g2, g3, h2, h3, rfl⟩ := Generate_stages hg
  obtain ⟨hreg, hlog3⟩ := buildAll_facts h3
  have hD : ∃ D : List Event, g2.log = g.log ++ Event.createCompileUnit :: D ∧
      D.filterMap Event.declares =
        (if sdb.GetAllFunctions.1 = 0 then sdb.GetAllFunctions.2 else []) ∧
      (∀ e ∈ D, e.inDeclarationPass = true) := by
    by_cases hok : sdb.GetAllFunctions.1 = 0
    · rw [if_pos hok] at h2
      obtain ⟨D, hl, hd, hp, _, _⟩ := declareAll_log h2
      refine ⟨D, ?_, by rw [if_pos hok]; exact hd, hp⟩
      rw [hl]
      simp [ModuleGenerator.emit]
    · rw [if_neg hok] at h2
      simp only [Option.some.injEq] at h2
      subst h2
      exact ⟨[], by simp [ModuleGenerator.emit], by simp [hok], by simp⟩
  obtain ⟨D, hl2, hdecl, hphase⟩ := hD
  refine ⟨D, _, ?_, rfl, hdecl, hphase, ?_, ?_⟩
  · simp only [ModuleGenerator.emit, hlog3, hl2, hreg]
    simp
  · simp only [ModuleGenerator.emit, hreg]
    rw [List.count_cons_self, List.count_append, List.count_append,
      count_eq_zero_of_inDeclarationPass (e := Event.createCompileUnit) hphase rfl,
      count_flatMap_buildEvents_createCompileUnit]
    simp
  · simp only [ModuleGenerator.emit, hreg]
    rw [List.count_cons, List.count_append, List.count_append,
      count_eq_zero_of_inDeclarationPass (e := Event.finalize) hphase rfl,
      count_flatMap_buildEvents_finalize]
    simp

theorem Generate_phase_order_witness :
    Generate plainEnv scenarioDb (ModuleGenerator.new emptyModule) = some (0, scenarioResult) ∧
    ∃ D run : List Event,
      scenarioResult.log = (ModuleGenerator.new emptyModule).log ++ run ∧
      run = Event.createCompileUnit ::
        (D ++ scenarioResult.functions_.flatMap buildEvents ++ [Event.finalize]) ∧
      D.filterMap Event.declares =
        (if scenarioDb.GetAllFunctions.1 = 0 then scenarioDb.GetAllFunctions.2 else []) ∧
      (∀ e ∈ D, e.inDeclarationPass = true) ∧
      run.count Event.createCompileUnit = 1 ∧ run.count Event.finalize = 1 :=
  ⟨rfl, Generate_phase_order plainEnv scenarioDb (ModuleGenerator.new emptyModule) 0
    scenarioResult rfl⟩

/-- C10. Whatever the flag, the pass list of `OptimizeFunction` is the passes
the builder populates (level 3, size level 0, inliner, vectorize and
loop-vectorize set) when the flag is on and none when it is off, followed by
the verifier; the verifier is in the list and is its last pass; with the flag
off the list is the verifier alone; and this is the list `OptimizeFunction`
runs over the function. -/
theorem OptimizeFunction_passes_end_with_verifier (env : Env) :
    OptimizeFunction.passes env =
      (if env.FLAGS_optimize_ir_functions then
        env.populateFunctionPassManager
          { OptLevel := 3, SizeLevel := 0, Inliner := some Pass.FunctionInlining,
            Vectorize := true, LoopVectorize := true }
       else []) ++ [Pass.Verifier] ∧
    Pass.Verifier ∈ OptimizeFunction.passes env ∧
    (OptimizeFunction.passes env).getLast? = some Pass.Verifier ∧
    OptimizeFunction.passes { env with FLAGS_optimize_ir_functions := false } = [Pass.Verifier] ∧
    ∀ (g : ModuleGenerator) (fn : Nat),
      (OptimizeFunction env g fn).map (fun g1 => g1.gen_module_.functions[fn]?) =
        (g.gen_module_.functions[fn]?.bind fun f =>
          (env.run (OptimizeFunction.passes env) f).map fun body => some (f.withBody body)) := by
  refine ⟨?_, ?_, ?_, ?_, ?_⟩
  · unfold OptimizeFunction.passes
    cases env.FLAGS_optimize_ir_functions <;>
      simp [createVerifierPass, createFunctionInliningPass]
  · simp [OptimizeFunction.passes, createVerifierPass]
  · simp [OptimizeFunction.passes, createVerifierPass]
  · simp [OptimizeFunction.passes, createVerifierPass]
  · intro g fn
    unfold OptimizeFunction
    simp only [ModuleGenerator.emit]
    cases hf : g.gen_module_.functions[fn]? with
    | none => simp
    | some f =>
      have hlt : fn < g.gen_module_.functions.length := (List.getElem?_eq_some_iff.mp hf).1
      cases hr : env.run (OptimizeFunction.passes env) f with
      | none => simp [hr]
      | some body => simp [hr, Module.update, hf, List.getElem?_set, hlt]

/-! ## The shape of a declaration; the attribute and the present import -/

theorem applyAbi_doesNotAlias (f : Function) : (applyAbi f).doesNotAlias 1 = true := by
  unfold applyAbi Function.setDoesNotAlias Function.addAttribute Function.doesNotAlias
  split_ifs with h
  · exact h
  · simp [Function.hasAttribute]

theorem applyAbi_Create_shape (name : String) (body : List BasicBlock) :
    HasAbiShape ((applyAbi (Function.Create abiType name)).withBody body) := by
  refine ⟨rfl, rfl, rfl, rfl, ?_, rfl⟩
  have := applyAbi_doesNotAlias (Function.Create abiType name)
  simpa [Function.doesNotAlias, Function.hasAttribute, Function.withBody] using this

/-- A function found at a handle the module did not have before a successful
`CreateFunctionDefinition(name)` is the fresh declaration. -/
theorem CreateFunctionDefinition_new {m m1 : Module} {name : String} {h : Nat}
    (hc : CreateFunctionDefinition m name = some (h, m1)) {i : Nat} {f1 : Function}
    (hi : m1.functions[i]? = some f1) (hnew : m.functions[i]? = none) :
    f1 = applyAbi (Function.Create abiType name) ∧ i = h := by
  rw [CreateFunctionDefinition_eq] at hc
  cases hf : findNamed name m.functions with
  | none =>
    simp only [hf, Option.some.injEq, Prod.mk.injEq] at hc
    obtain ⟨rfl, rfl⟩ := hc
    have hge : m.functions.length ≤ i := by
      by_contra hlt
      have hlt1 : i < m.functions.length := Nat.lt_of_not_le hlt
      have := List.getElem?_eq_getElem hlt1
      rw [hnew] at this
      cases this
    simp only [List.getElem?_append_right hge] at hi
    by_cases h0 : i - m.functions.length = 0
    · simp [h0] at hi
      exact ⟨hi.symm, by omega⟩
    · obtain ⟨k, hk⟩ := Nat.exists_eq_succ_of_ne_zero h0
      simp [hk] at hi
  | some p =>
    obtain ⟨j, f⟩ := p
    simp only [hf] at hc
    split_ifs at hc with ht
    simp only [Option.some.injEq, Prod.mk.injEq] at hc
    obtain ⟨rfl, rfl⟩ := hc
    have hlt : i < m.functions.length := by
      have := (List.getElem?_eq_some_iff.mp hi).1
      simpa using this
    have := List.getElem?_eq_getElem hlt
    rw [hnew] at this
    cases this

/-- C7. In a module that does not hold `name`, `CreateFunctionDefinition(name)`
returns a declaration called `name` with exactly one parameter (a pointer, its
argument called `state` and marked no-alias), not variadic, returning void,
with the C calling convention; and every function that `PrepareFunction` or
`AddMissingImport` adds to the module has this same shape. -/
theorem CreateFunctionDefinition_shape (m : Module) (name : String)
    (hfresh : ∀ f ∈ m.functions, f.name ≠ name) :
    (∃ h m1 f, CreateFunctionDefinition m name = some (h, m1) ∧
      m1.functions[h]? = some f ∧ f.name = name ∧ HasAbiShape f) ∧
    (∀ (g g1 : ModuleGenerator) (fn : FunctionSymbol) (i : Nat) (f1 : Function),
      PrepareFunction g fn = some g1 → g.gen_module_.functions[i]? = none →
      g1.gen_module_.functions[i]? = some f1 → HasAbiShape f1) ∧
    (∀ (env : Env) (g g1 : ModuleGenerator) (fn : FunctionSymbol) (i : Nat) (f1 : Function),
      AddMissingImport env g fn = some g1 → g.gen_module_.functions[i]? = none →
      g1.gen_module_.functions[i]? = some f1 → HasAbiShape f1) := by
  refine ⟨?_, ?_, ?_⟩
  · have hnone : findNamed name m.functions = none := by
      cases hf : findNamed name m.functions with
      | none => rfl
      | some p =>
        obtain ⟨hi, hn⟩ := findNamed_some hf
        exact absurd hn (hfresh p.2 (List.getElem?_mem hi))
    refine ⟨m.functions.length,
      { functions := m.functions ++ [applyAbi (Function.Create abiType name)] },
      applyAbi (Function.Create abiType name), ?_, ?_, ?_, ?_⟩
    · rw [CreateFunctionDefinition_eq, hnone]
    · simp
    · simp [Function.Create]
    · exact applyAbi_Create_shape name []
  · intro g g1 fn i f1 hp hnew hi
    unfold PrepareFunction at hp
    simp only [ModuleGenerator.emit] at hp
    cases hc : CreateFunctionDefinition g.gen_module_ fn.name with
    | none => simp [hc] at hp
    | some p =>
      obtain ⟨h, m1⟩ := p
      simp only [hc] at hp
      cases hm : m1.functions[h]? with
      | none => simp [hm] at hp
      | some fdef =>
        simp only [hm, Option.some.injEq] at hp
        subst hp
        obtain ⟨rfl, _⟩ := CreateFunctionDefinition_new hc hi hnew
        exact applyAbi_Create_shape fn.name []
  · intro env g g1 fn i f1 ha hnew hi
    unfold AddMissingImport at ha
    simp only [ModuleGenerator.emit] at ha
    cases hc : CreateFunctionDefinition g.gen_module_ fn.name with
    | none => simp [hc] at ha
    | some p =>
      obtain ⟨h, m1⟩ := p
      simp only [hc] at ha
      obtain ⟨_, f0, hm1, _, _, _⟩ := CreateFunctionDefinition_facts hc
      have hlt : h < m1.functions.length := (List.getElem?_eq_some_iff.mp hm1).1
      obtain ⟨f, body, hf, _, hmod, _, _⟩ := OptimizeFunction_facts ha
      simp only [Module.update, hm1, addStub_eq, List.getElem?_set, hlt, if_true,
        Option.some.injEq] at hf
      simp only [Module.update, hm1, addStub_eq] at hmod
      subst hf
      rw [hmod] at hi
      simp only [List.set_set, withBody_withBody] at hi
      by_cases hih : h = i
      · subst hih
        simp only [List.getElem?_set, hlt, if_true, Option.some.injEq] at hi
        obtain ⟨e, _⟩ := CreateFunctionDefinition_new hc hm1 hnew
        rw [← hi, e]
        exact applyAbi_Create_shape fn.name body
      · simp only [List.getElem?_set, hih, if_false] at hi
        obtain ⟨_, e⟩ := CreateFunctionDefinition_new hc hi hnew
        exact absurd e.symm hih

theorem CreateFunctionDefinition_shape_witness :
    (∀ f ∈ emptyModule.functions, f.name ≠ "sub_1000") ∧
    (∃ h m1 f, CreateFunctionDefinition emptyModule "sub_1000" = some (h, m1) ∧
      m1.functions[h]? = some f ∧ f.name = "sub_1000" ∧ HasAbiShape f) ∧
    PrepareFunction (ModuleGenerator.new emptyModule) sub_1000 = some preparedResult ∧
    HasAbiShape (applyAbi (Function.Create abiType "sub_1000")) ∧
    AddMissingImport plainEnv (ModuleGenerator.new emptyModule) KeBugCheck = some stubbedResult ∧
    HasAbiShape ((applyAbi (Function.Create abiType "KeBugCheck")).withBody stubBody) :=
  have h := CreateFunctionDefinition_shape emptyModule "sub_1000" (by decide)
  ⟨by decide, h.1, rfl,
    h.2.1 (ModuleGenerator.new emptyModule) preparedResult sub_1000 0 _ rfl rfl rfl, rfl,
    h.2.2 plainEnv (ModuleGenerator.new emptyModule) stubbedResult KeBugCheck 0 _ rfl rfl rfl⟩

/-- A successful `CreateFunctionDefinition` leaves `nounwind` as it found it:
on the returned function `doesNotThrow()` answers what it answered before the
call, and false when the function is new. -/
theorem CreateFunctionDefinition_keeps_nounwind {m m1 : Module} {name : String} {h : Nat}
    (hc : CreateFunctionDefinition m name = some (h, m1)) :
    (m1.functions[h]?).map Function.doesNotThrow =
      some (((m.functions[h]?).map Function.doesNotThrow).getD false) := by
  obtain ⟨_, f0, hm1, _, _, hsrc⟩ := CreateFunctionDefinition_facts hc
  rw [hm1]
  rcases hsrc with hold | ⟨hnew, rfl⟩
  · simp [hold, applyAbi_doesNotThrow]
  · have hnone : m.functions[h]? = none := by
      cases hx : m.functions[h]? with
      | none => rfl
      | some fx =>
        obtain ⟨f1, hf1, hn1, _⟩ := (CreateFunctionDefinition_facts hc).1.1 h fx hx
        rw [hm1] at hf1
        have e := Option.some.inj hf1
        rw [← e] at hn1
        simp only [applyAbi_name] at hn1
        exact absurd hn1.symm (hnew fx (List.getElem?_mem hx))
    rw [hnone]
    simp only [Option.map_some', Option.map_none', Option.getD_none, applyAbi_doesNotThrow]
    rfl

/-- C8, evaluated: on an empty module `CreateFunctionDefinition("sub_1000")`
returns the one function of the module, and `doesNotThrow()` is false on it:
the call `f->doesNotThrow()` reads the attribute and sets nothing. -/
theorem CreateFunctionDefinition_nounwind_not_set :
    (CreateFunctionDefinition emptyModule "sub_1000").map
      (fun p => (p.1, p.2.functions.map Function.doesNotThrow)) = some (0, [false]) := by
  decide

/-- C6, evaluated: after `Generate` on a catalog holding `NtClose`, an import
whose export is implemented, the module, empty before, is still empty: no
function called `NtClose` was declared, let alone given a body. -/
theorem Generate_present_import_declares_nothing :
    hasImplementedExport NtClose = true ∧
    (Generate plainEnv presentDb (ModuleGenerator.new emptyModule)).map
      (fun p => (p.1, p.2.gen_module_.functions)) = some (0, []) := by
  decide

/-! ## Counting the calls made for one function -/

theorem translations_flatMap_buildEvents (reg : List (Nat × CodegenFunction)) (f : Nat) :
    translations (reg.flatMap buildEvents) f = reg.countP (fun kv => decide (kv.2.function = f)) := by
  induction reg with
  | nil => simp [translations]
  | cons kv rest ih =>
    unfold translations at ih ⊢
    simp only [List.flatMap_cons, List.countP_append, ih, List.countP_cons]
    by_cases h : kv.2.function = f <;>
      simp [buildEvents, List.countP_cons, Event.translates, h, Nat.add_comm]

theorem optimizations_flatMap_buildEvents (reg : List (Nat × CodegenFunction)) (f : Nat) :
    optimizations (reg.flatMap buildEvents) f =
      reg.countP (fun kv => decide (kv.2.function = f)) := by
  induction reg with
  | nil => simp [optimizations]
  | cons kv rest ih =>
    unfold optimizations at ih ⊢
    simp only [List.flatMap_cons, List.count_append, ih, List.countP_cons]
    by_cases h : kv.2.function = f <;>
      simp [buildEvents, List.count_cons, h, Nat.add_comm]

/-- In an ascending registry, a test that holds at one entry and only at
entries under that entry's key holds exactly once. -/
theorem KeysAscend.countP_eq_one {reg : List (Nat × CodegenFunction)} (hs : KeysAscend reg)
    {k : Nat} {c : CodegenFunction} (hmem : (k, c) ∈ reg) (p : Nat × CodegenFunction → Bool)
    (hp : p (k, c) = true) (honly : ∀ kv ∈ reg, p kv = true → kv.1 = k) :
    reg.countP p = 1 := by
  have hfind : mapFind k reg = some c := mapFind_of_mem hs hmem
  have hcongr : reg.countP p = reg.countP (fun kv => decide (kv.1 = k)) := by
    apply List.countP_congr
    intro kv hkv
    constructor
    · intro h
      simpa using honly kv hkv h
    · intro h
      have hk : kv.1 = k := by simpa using h
      have h2 : mapFind k reg = some kv.2 := by
        apply mapFind_of_mem hs
        rw [← hk]
        exact hkv
      rw [hfind] at h2
      have : kv = (k, c) := by
        cases kv
        simp only [Option.some.injEq] at h2
        simp only at hk
        simp [hk, h2]
      rw [this]
      exact hp
  rw [hcongr, List.countP_eq_length_filter, hs.filter_key_length k, hfind]
  simp

theorem nameAt_unique {m : Module} {h : Nat} {n1 n2 : String}
    (h1 : NameAt m h n1) (h2 : NameAt m h n2) : n1 = n2 := by
  obtain ⟨f1, hf1, rfl⟩ := h1
  obtain ⟨f2, hf2, rfl⟩ := h2
  rw [hf1] at hf2
  cases hf2
  rfl

theorem eq_of_filter_name_length_one {fns : List FunctionSymbol} {n : String}
    (h1 : (fns.filter (fun t => decide (t.name = n))).length = 1)
    {a b : FunctionSymbol} (ha : a ∈ fns) (hb : b ∈ fns) (han : a.name = n) (hbn : b.name = n) :
    a = b := by
  obtain ⟨x, hx⟩ := List.length_eq_one.mp h1
  have ha1 : a ∈ fns.filter (fun t => decide (t.name = n)) :=
    List.mem_filter.mpr ⟨ha, by simpa using han⟩
  have hb1 : b ∈ fns.filter (fun t => decide (t.name = n)) :=
    List.mem_filter.mpr ⟨hb, by simpa using hbn⟩
  rw [hx] at ha1 hb1
  simp only [List.mem_singleton] at ha1 hb1
  rw [ha1, hb1]

/-! ## Generate: each user function is built once -/

/-- C4 as stated fails: with two User symbols called `sub_1000` at different
addresses, both records hold the one function of that name, and the function
of the record at 0x1000 is handed to `GenerateBasicBlocks` twice and to
`OptimizeFunction` twice. -/
theorem shared_name_built_twice :
    sameNameDb.GetAllFunctions.1 = 0 ∧
    sub_1000 ∈ sameNameDb.GetAllFunctions.2 ∧
    sub_1000.type = FunctionSymbolType.User ∧
    (Generate plainEnv sameNameDb (ModuleGenerator.new emptyModule)).map
      (fun p => (p.1, (GetCodegenFunction p.2 sub_1000.start_address).map
        (fun c => (translations p.2.log c.function, optimizations p.2.log c.function))))
      = some (0, some (2, 2)) := by
  decide

/-- C4, amended. After a `Generate` that returns, on a fresh generator and a
retrieved catalog, every User symbol `s` has a record at `s.start_address`;
when the name of that record's symbol is carried by no other symbol of the
catalog (start addresses may be shared), the record's function has been handed
to `GenerateBasicBlocks` exactly once and to `OptimizeFunction` exactly once
during the run. -/
theorem built_once_when_name_unshared (env : Env) (sdb : SymbolDatabase) (m : Module)
    (r : Int) (g1 : ModuleGenerator) (s : FunctionSymbol)
    (hok : sdb.GetAllFunctions.1 = 0)
    (hg : Generate env sdb (ModuleGenerator.new m) = some (r, g1))
    (hs : s ∈ sdb.GetAllFunctions.2) (hu : s.type = FunctionSymbolType.User) :
    ∃ c, GetCodegenFunction g1 s.start_address = some c ∧
      ((sdb.GetAllFunctions.2.filter (fun t => decide (t.name = c.symbol.name))).length = 1 →
        translations g1.log c.function = 1 ∧ optimizations g1.log c.function = 1) := by
  obtain ⟨_, g2, g3, h2, h3, rfl⟩ := Generate_stages hg
  rw [if_pos hok] at h2
  obtain ⟨hsorted, hfind⟩ :=
    declareAll_registry (g := (ModuleGenerator.new m).emit Event.createCompileUnit)
      KeysAscend.nil h2
  obtain ⟨D, hlog2, _, hphase, hopt, hreg⟩ := declareAll_log h2
  obtain ⟨hreg3, hlog3⟩ := buildAll_facts h3
  have hreg2 : ∀ kv ∈ g2.functions_, kv.2.symbol ∈ sdb.GetAllFunctions.2 ∧
      kv.2.symbol.type = FunctionSymbolType.User ∧ kv.1 = kv.2.symbol.start_address ∧
      NameAt g2.gen_module_ kv.2.function kv.2.symbol.name := by
    intro kv hkv
    rcases hreg kv hkv with h | h
    · simp [ModuleGenerator.emit, ModuleGenerator.new] at h
    · exact h
  have hfs := hfind s.start_address
  have hfirst : (sdb.GetAllFunctions.2.find? (isUserAt s.start_address)).isSome := by
    rw [find?_isUserAt_isSome]
    exact ⟨s, hs, hu, rfl⟩
  simp only [ModuleGenerator.emit, ModuleGenerator.new, mapFind, Option.map_none',
    Option.none_or] at hfs
  rw [← hfs] at hfirst
  cases hc : mapFind s.start_address g2.functions_ with
  | none => simp [hc] at hfirst
  | some c =>
    have hmem : (s.start_address, c) ∈ g2.functions_ := mapFind_mem hc
    obtain ⟨hcin, hcu, _, hcname⟩ := hreg2 _ hmem
    refine ⟨c, by simp [GetCodegenFunction, ModuleGenerator.emit, hreg3, hc], ?_⟩
    intro hone
    have hcount : g2.functions_.countP (fun kv => decide (kv.2.function = c.function)) = 1 := by
      apply hsorted.countP_eq_one hmem
      · simp
      · intro kv hkv hp
        have hfn : kv.2.function = c.function := by simpa using hp
        obtain ⟨hkin, _, hkey, hkname⟩ := hreg2 kv hkv
        rw [hfn] at hkname
        have hn : kv.2.symbol.name = c.symbol.name := nameAt_unique hkname hcname
        have hsym : kv.2.symbol = c.symbol := eq_of_filter_name_length_one hone hkin hcin hn rfl
        have hckey := (hreg2 _ hmem).2.2.1
        simp only at hckey
        rw [hkey, hsym, ← hckey]
    have htr : D.countP (Event.translates c.function) = 0 := by
      rw [List.countP_eq_zero]
      intro e he
      have := hphase e he
      cases e <;> simp [Event.inDeclarationPass] at this <;> simp [Event.translates]
    have hop : D.count (Event.OptimizeFunction c.function) = 0 := by
      rw [List.count_eq_zero]
      intro hin
      obtain ⟨t, ht, htk, htname⟩ := hopt _ hin
      have hn : t.name = c.symbol.name := nameAt_unique htname hcname
      have hsym : t = c.symbol := eq_of_filter_name_length_one hone ht hcin hn rfl
      rw [hsym, hcu] at htk
      cases htk
    have hB1 := translations_flatMap_buildEvents g2.functions_ c.function
    have hB2 := optimizations_flatMap_buildEvents g2.functions_ c.function
    unfold translations at hB1 ⊢
    unfold optimizations at hB2 ⊢
    simp only [ModuleGenerator.emit, hlog3, hlog2, ModuleGenerator.new, List.nil_append,
      List.countP_append, List.count_append, htr, hop, hB1, hB2, hcount]
    simp [Event.translates, List.count_cons]

theorem built_once_when_name_unshared_witness :
    scenarioDb.GetAllFunctions.1 = 0 ∧
    Generate plainEnv scenarioDb (ModuleGenerator.new emptyModule) = some (0, scenarioResult) ∧
    sub_1000 ∈ scenarioDb.GetAllFunctions.2 ∧
    sub_1000.type = FunctionSymbolType.User ∧
    GetCodegenFunction scenarioResult sub_1000.start_address =
      some { symbol := sub_1000, function_type := abiType, function := 0 } ∧
    (scenarioDb.GetAllFunctions.2.filter (fun t => decide (t.name = sub_1000.name))).length = 1 ∧
    translations scenarioResult.log 0 = 1 ∧ optimizations scenarioResult.log 0 = 1 := by
  obtain ⟨c, hc, h⟩ :=
    built_once_when_name_unshared plainEnv scenarioDb emptyModule 0 scenarioResult sub_1000
      rfl rfl (by decide) rfl
  have h0 : GetCodegenFunction scenarioResult sub_1000.start_address =
      some { symbol := sub_1000, function_type := abiType, function := 0 } := rfl
  rw [h0] at hc
  have hce := Option.some.inj hc
  subst hce
  exact ⟨rfl, rfl, by decide, rfl, rfl, by decide, h (by decide)⟩

/-! ## What later symbols and the build loop leave alone -/

theorem declareAll_append (env : Env) (l1 l2 : List FunctionSymbol) (g : ModuleGenerator) :
    declareAll env g (l1 ++ l2) = (declareAll env g l1).bind (fun g1 => declareAll env g1 l2) := by
  induction l1 generalizing g with
  | nil => simp [declareAll]
  | cons fn rest ih =>
    simp only [List.cons_append, declareAll]
    cases hstep : declare env g fn with
    | none => simp
    | some g2 => simp [ih]

theorem Touches.no_name {name n : String} {m m1 : Module} (h : Touches name m m1)
    (hne : name ≠ n) (hm : ∀ f ∈ m.functions, f.name ≠ n) : ∀ f ∈ m1.functions, f.name ≠ n := by
  intro f hf
  obtain ⟨i, hi⟩ := List.mem_iff_getElem?.mp hf
  rcases h.2 i f hi with hn | hold
  · rw [hn]
    exact hne
  · exact hm f (List.getElem?_mem hold)

theorem Touches.keep {name : String} {m m1 : Module} (h : Touches name m m1)
    {i : Nat} {f : Function} (hf : m.functions[i]? = some f) (hne : f.name ≠ name) :
    m1.functions[i]? = some f := by
  obtain ⟨f1, hf1, _, hk⟩ := h.1 i f hf
  rw [hf1, hk hne]

/-- Symbols not called `n` leave a module without `n` without `n`. -/
theorem declareAll_no_name {env : Env} {fns : List FunctionSymbol} {g g1 : ModuleGenerator}
    {n : String} (hd : declareAll env g fns = some g1) (hfns : ∀ t ∈ fns, t.name ≠ n)
    (hm : ∀ f ∈ g.gen_module_.functions, f.name ≠ n) :
    ∀ f ∈ g1.gen_module_.functions, f.name ≠ n := by
  induction fns generalizing g with
  | nil =>
    simp only [declareAll, Option.some.injEq] at hd
    subst hd
    exact hm
  | cons fn rest ih =>
    unfold declareAll at hd
    cases hstep : declare env g fn with
    | none => simp [hstep] at hd
    | some g2 =>
      simp only [hstep] at hd
      apply ih hd (fun t ht => hfns t (List.mem_cons_of_mem _ ht))
      exact (declare_facts hstep).1.no_name (hfns fn (List.mem_cons_self _ _)) hm

/-- Symbols not called `n` leave a function called `n` as it is, and the log
only grows. -/
theorem declareAll_keep {env : Env} {fns : List FunctionSymbol} {g g1 : ModuleGenerator}
    {i : Nat} {f : Function} (hd : declareAll env g fns = some g1)
    (hfns : ∀ t ∈ fns, t.name ≠ f.name) (hf : g.gen_module_.functions[i]? = some f) :
    g1.gen_module_.functions[i]? = some f := by
  induction fns generalizing g with
  | nil =>
    simp only [declareAll, Option.some.injEq] at hd
    subst hd
    exact hf
  | cons fn rest ih =>
    unfold declareAll at hd
    cases hstep : declare env g fn with
    | none => simp [hstep] at hd
    | some g2 =>
      simp only [hstep] at hd
      apply ih hd (fun t ht => hfns t (List.mem_cons_of_mem _ ht))
      exact (declare_facts hstep).1.keep hf (fun e => hfns fn (List.mem_cons_self _ _) e.symm)

/-- The build loop leaves alone a function no registry entry holds, when the
translator leaves alone the functions it is not handed. -/
theorem buildAll_keep {env : Env} {reg : List (Nat × CodegenFunction)}
    {g g1 : ModuleGenerator} {i : Nat} {f : Function}
    (htr : ∀ (fn : FunctionSymbol) (h : Nat) (m0 : Module) (j : Nat) (f0 : Function),
      j ≠ h → m0.functions[j]? = some f0 →
      (env.GenerateBasicBlocks fn h m0).functions[j]? = some f0)
    (hb : buildAll env g reg = some g1) (hreg : ∀ kv ∈ reg, kv.2.function ≠ i)
    (hf : g.gen_module_.functions[i]? = some f) :
    g1.gen_module_.functions[i]? = some f := by
  induction reg generalizing g with
  | nil =>
    simp only [buildAll, Option.some.injEq] at hb
    subst hb
    exact hf
  | cons kv rest ih =>
    obtain ⟨k, cgf⟩ := kv
    unfold buildAll at hb
    cases hstep : BuildFunction env g cgf with
    | none => simp [hstep] at hb
    | some g2 =>
      simp only [hstep] at hb
      apply ih hb (fun kv hkv => hreg kv (List.mem_cons_of_mem _ hkv))
      have hne : cgf.function ≠ i := hreg (k, cgf) (List.mem_cons_self _ _)
      unfold BuildFunction at hstep
      obtain ⟨_, _, _, _, hmod, _, _⟩ := OptimizeFunction_facts hstep
      simp only [ModuleGenerator.emit] at hmod
      rw [hmod]
      simp only [List.getElem?_set, hne, if_false]
      exact htr _ _ _ _ _ (fun e => hne e.symm) hf

/-! ## Generate: the stub of a missing import -/

theorem filter_name_split {fns : List FunctionSymbol} {s : FunctionSymbol}
    (hs : s ∈ fns) (hone : (fns.filter (fun t => decide (t.name = s.name))).length = 1) :
    ∃ l1 l2, fns = l1 ++ s :: l2 ∧ (∀ t ∈ l1, t.name ≠ s.name) ∧ (∀ t ∈ l2, t.name ≠ s.name) := by
  obtain ⟨l1, l2, rfl⟩ := List.append_of_mem hs
  refine ⟨l1, l2, rfl, ?_, ?_⟩
  · intro t ht hn
    have hmem : t ∈ l1.filter (fun t => decide (t.name = s.name)) :=
      List.mem_filter.mpr ⟨ht, by simpa using hn⟩
    have hpos := List.length_pos_of_mem hmem
    simp [List.filter_append, List.filter_cons] at hone
    omega
  · intro t ht hn
    have hmem : t ∈ l2.filter (fun t => decide (t.name = s.name)) :=
      List.mem_filter.mpr ⟨ht, by simpa using hn⟩
    have hpos := List.length_pos_of_mem hmem
    simp [List.filter_append, List.filter_cons] at hone
    omega

/-- C5 as stated fails: with two missing imports called `KeBugCheck`, the one
function of that name ends with two blocks, not one. -/
theorem shared_import_name_two_blocks :
    KeBugCheck ∈ sameImportDb.GetAllFunctions.2 ∧
    KeBugCheck.type = FunctionSymbolType.Kernel ∧
    hasImplementedExport KeBugCheck = false ∧
    (Generate plainEnv sameImportDb (ModuleGenerator.new emptyModule)).map
      (fun p => p.2.gen_module_.functions.map (fun f => (f.name, f.blocks.length)))
      = some [("KeBugCheck", 2)] := by
  decide

/-- C5, amended. Take a Kernel symbol `s` whose export link is null or not
implemented, whose name no other symbol of the retrieved catalog carries and
no function of the module carried before.  If the pass run leaves a body made
of the lone `ret void` block as it is and the translator leaves alone the
functions it is not handed, then after a `Generate` that returns on a fresh
generator the module holds, at a handle logged as optimized, the stub of `s`:
the fresh declaration called `s.name` whose body is the single block `entry`
holding only `ret void`. -/
theorem missing_import_stub (env : Env) (sdb : SymbolDatabase) (m : Module)
    (r : Int) (g1 : ModuleGenerator) (s : FunctionSymbol)
    (hok : sdb.GetAllFunctions.1 = 0)
    (hg : Generate env sdb (ModuleGenerator.new m) = some (r, g1))
    (hs : s ∈ sdb.GetAllFunctions.2) (hk : s.type = FunctionSymbolType.Kernel)
    (hmiss : hasImplementedExport s = false)
    (hone : (sdb.GetAllFunctions.2.filter (fun t => decide (t.name = s.name))).length = 1)
    (hfresh : ∀ f ∈ m.functions, f.name ≠ s.name)
    (hrun : ∀ (ps : List Pass) (f : Function) (body : List BasicBlock),
      f.blocks = stubBody → env.run ps f = some body → body = stubBody)
    (htr : ∀ (fn : FunctionSymbol) (h : Nat) (m0 : Module) (j : Nat) (f0 : Function),
      j ≠ h → m0.functions[j]? = some f0 →
      (env.GenerateBasicBlocks fn h m0).functions[j]? = some f0) :
    ∃ h, g1.gen_module_.functions[h]? = some (stubFunction s.name) ∧
      (stubFunction s.name).name = s.name ∧
      (stubFunction s.name).blocks = [{ name := "entry", instructions := [Instruction.RetVoid] }] ∧
      Event.OptimizeFunction h ∈ g1.log ∧
      Pass.Verifier ∈ OptimizeFunction.passes env := by
  obtain ⟨_, g2, g3, h2, h3, rfl⟩ := Generate_stages hg
  rw [if_pos hok] at h2
  obtain ⟨l1, l2, hsplit, hl1, hl2⟩ := filter_name_split hs hone
  rw [hsplit, declareAll_append] at h2
  cases hpre : declareAll env ((ModuleGenerator.new m).emit Event.createCompileUnit) l1 with
  | none => simp [hpre] at h2
  | some ga =>
    simp only [hpre, Option.some_bind, declareAll] at h2
    cases hstep : declare env ga s with
    | none => simp [hstep] at h2
    | some gb =>
      simp only [hstep] at h2
      have hfa : ∀ f ∈ ga.gen_module_.functions, f.name ≠ s.name :=
        declareAll_no_name hpre hl1 (by simpa [ModuleGenerator.emit, ModuleGenerator.new] using hfresh)
      obtain ⟨_, hcase⟩ := declare_facts hstep
      rcases hcase with ⟨hty, _⟩ | ⟨_, himp, _⟩ | ⟨_, _, _, h, f0, body, hlogb, hn0, hsrc, hrunb, hat⟩
      · rw [hk] at hty
        cases hty
      · rw [hmiss] at himp
        cases himp
      · have hf0 : f0 = Function.Create abiType s.name := by
          rcases hsrc with hold | ⟨_, e⟩
          · exact absurd hn0 (hfa f0 (List.getElem?_mem hold))
          · exact e
        subst hf0
        have hbody : body = stubBody := by
          apply hrun _ _ _ _ hrunb
          simp [Function.Create]
        subst hbody
        have hatb : gb.gen_module_.functions[h]? = some (stubFunction s.name) := hat
        have hname : (stubFunction s.name).name = s.name := by
          simp [stubFunction, Function.Create]
        have hat2 : g2.gen_module_.functions[h]? = some (stubFunction s.name) :=
          declareAll_keep h2 (by rw [hname]; exact hl2) hatb
        obtain ⟨D, hlog2, _, _, _, hreg⟩ := declareAll_log h2
        obtain ⟨D1, hloga, _, _, _, hrega⟩ := declareAll_log hpre
        have hregb : gb.functions_ = ga.functions_ := by
          obtain ⟨_, hc2⟩ := declare_facts hstep
          rcases hc2 with ⟨hty, _⟩ | ⟨_, himp, _⟩ | ⟨_, _, hsame, _⟩
          · rw [hk] at hty
            cases hty
          · rw [hmiss] at himp
            cases himp
          · exact hsame
        have hne : ∀ kv ∈ g2.functions_, kv.2.function ≠ h := by
          intro kv hkv hfn
          have hfacts : kv.2.symbol.type = FunctionSymbolType.User ∧
              kv.2.symbol ∈ sdb.GetAllFunctions.2 ∧
              NameAt g2.gen_module_ kv.2.function kv.2.symbol.name := by
            rcases hreg kv hkv with hold | ⟨hin, hu, _, hna⟩
            · rw [hregb] at hold
              rcases hrega kv hold with hnil | ⟨hin, hu, _, hna⟩
              · simp [ModuleGenerator.emit, ModuleGenerator.new] at hnil
              · refine ⟨hu, ?_, ?_⟩
                · rw [hsplit]
                  exact List.mem_append_left _ hin
                · exact declareAll_nameAt h2 (declare_nameAt hstep hna)
            · refine ⟨hu, ?_, hna⟩
              rw [hsplit]
              exact List.mem_append_right _ (List.mem_cons_of_mem _ hin)
          obtain ⟨hu, hin, hna⟩ := hfacts
          rw [hfn] at hna
          have hn : kv.2.symbol.name = s.name :=
            (nameAt_unique hna ⟨_, hat2, hname⟩)
          have hsym : kv.2.symbol = s := eq_of_filter_name_length_one hone hin hs hn rfl
          rw [hsym, hk] at hu
          cases hu
        have hat3 : g3.gen_module_.functions[h]? = some (stubFunction s.name) :=
          buildAll_keep htr h3 hne hat2
        obtain ⟨_, hlog3⟩ := buildAll_facts h3
        refine ⟨h, by simpa [ModuleGenerator.emit] using hat3, hname, rfl, ?_, ?_⟩
        · simp only [ModuleGenerator.emit, hlog3, hlog2, hlogb]
          simp
        · simp [OptimizeFunction.passes, createVerifierPass]

theorem missing_import_stub_witness :
    scenarioDb.GetAllFunctions.1 = 0 ∧
    Generate plainEnv scenarioDb (ModuleGenerator.new emptyModule) = some (0, scenarioResult) ∧
    KeBugCheck ∈ scenarioDb.GetAllFunctions.2 ∧
    hasImplementedExport KeBugCheck = false ∧
    ∃ h, scenarioResult.gen_module_.functions[h]? = some (stubFunction KeBugCheck.name) ∧
      (stubFunction KeBugCheck.name).name = KeBugCheck.name ∧
      (stubFunction KeBugCheck.name).blocks =
        [{ name := "entry", instructions := [Instruction.RetVoid] }] ∧
      Event.OptimizeFunction h ∈ scenarioResult.log ∧
      Pass.Verifier ∈ OptimizeFunction.passes plainEnv :=
  ⟨rfl, rfl, by decide, rfl,
    missing_import_stub plainEnv scenarioDb emptyModule 0 scenarioResult KeBugCheck
      rfl rfl (by decide) rfl rfl (by decide) (by decide)
      (fun _ f body hb hr => by
        have : some f.blocks = some body := hr
        rw [← Option.some.inj this, hb])
      (fun _ _ _ _ _ _ hf => hf)⟩

/-! ## Generate returns -/

theorem CreateFunctionDefinition_total {m : Module} (name : String) (hm : AllAbi m) :
    ∃ h m1, CreateFunctionDefinition m name = some (h, m1) ∧ AllAbi m1 ∧
      h < m1.functions.length := by
  rw [CreateFunctionDefinition_eq]
  cases hf : findNamed name m.functions with
  | none =>
    refine ⟨_, _, rfl, ?_, by simp⟩
    intro f hfm
    rcases List.mem_append.mp hfm with h | h
    · exact hm f h
    · simp only [List.mem_singleton] at h
      rw [h, applyAbi_function_type]
      rfl
  | some p =>
    obtain ⟨i, f⟩ := p
    obtain ⟨hi, _⟩ := findNamed_some hf
    have hlt : i < m.functions.length := (List.getElem?_eq_some_iff.mp hi).1
    have ht : f.function_type = abiType := hm f (List.getElem?_mem hi)
    simp only [ht, if_true]
    refine ⟨_, _, rfl, ?_, by simpa using hlt⟩
    intro f1 hf1
    rcases List.mem_or_eq_of_mem_set hf1 with h | h
    · exact hm f1 h
    · rw [h, applyAbi_function_type, ht]

theorem OptimizeFunction_total {env : Env} (hrun : ∀ ps f, (env.run ps f).isSome = true)
    (g : ModuleGenerator) {h : Nat} (hh : h < g.gen_module_.functions.length) :
    ∃ g1, OptimizeFunction env g h = some g1 ∧
      g1.gen_module_.functions.length = g.gen_module_.functions.length ∧
      (AllAbi g.gen_module_ → AllAbi g1.gen_module_) := by
  unfold OptimizeFunction
  simp only [ModuleGenerator.emit, List.getElem?_eq_getElem hh]
  obtain ⟨body, hb⟩ := Option.isSome_iff_exists.mp
    (hrun (OptimizeFunction.passes env) g.gen_module_.functions[h])
  simp only [hb]
  refine ⟨_, rfl, ?_, ?_⟩
  · simp [Module.update, List.getElem?_eq_getElem hh]
  · intro hm f hf
    simp only [Module.update, List.getElem?_eq_getElem hh] at hf
    rcases List.mem_or_eq_of_mem_set hf with h1 | h1
    · exact hm f h1
    · rw [h1]
      exact hm g.gen_module_.functions[h] (List.getElem_mem hh)

theorem declare_total {env : Env} (hrun : ∀ ps f, (env.run ps f).isSome = true)
    (g : ModuleGenerator) (fn : FunctionSymbol) (hty : fn.type ≠ FunctionSymbolType.Unknown)
    (hm : AllAbi g.gen_module_) :
    ∃ g1, declare env g fn = some g1 ∧ AllAbi g1.gen_module_ := by
  unfold declare
  cases ht : fn.type with
  | User =>
    simp only
    unfold PrepareFunction
    simp only [ModuleGenerator.emit]
    obtain ⟨h, m1, hc, hm1, hlt⟩ := CreateFunctionDefinition_total fn.name hm
    simp only [hc, List.getElem?_eq_getElem hlt]
    exact ⟨_, rfl, hm1⟩
  | Kernel =>
    simp only
    split_ifs
    · exact ⟨_, rfl, hm⟩
    · unfold AddMissingImport
      simp only [ModuleGenerator.emit]
      obtain ⟨h, m1, hc, hm1, hlt⟩ := CreateFunctionDefinition_total fn.name hm
      simp only [hc]
      have hlen : (m1.update h fun fn =>
          CreateRetVoid (BasicBlock.Create "entry" fn).2 (BasicBlock.Create "entry" fn).1
          ).functions.length = m1.functions.length := by
        simp [Module.update, List.getElem?_eq_getElem hlt]
      have habi : AllAbi (m1.update h fun fn =>
          CreateRetVoid (BasicBlock.Create "entry" fn).2 (BasicBlock.Create "entry" fn).1) := by
        intro f hf
        simp only [Module.update, List.getElem?_eq_getElem hlt, addStub_eq] at hf
        rcases List.mem_or_eq_of_mem_set hf with h1 | h1
        · exact hm1 f h1
        · rw [h1]
          exact hm1 m1.functions[h] (List.getElem_mem hlt)
      obtain ⟨g1, ho, _, hkeep⟩ := OptimizeFunction_total hrun
        { gen_module_ := m1.update h fun fn =>
            CreateRetVoid (BasicBlock.Create "entry" fn).2 (BasicBlock.Create "entry" fn).1,
          functions_ := g.functions_, log := g.log ++ [Event.AddMissingImport fn] }
        (h := h) (by rw [hlen]; exact hlt)
      exact ⟨g1, ho, hkeep habi⟩
  | Unknown => exact absurd ht hty

theorem declareAll_total {env : Env} (hrun : ∀ ps f, (env.run ps f).isSome = true)
    (fns : List FunctionSymbol) (g : ModuleGenerator)
    (hty : ∀ t ∈ fns, t.type ≠ FunctionSymbolType.Unknown) (hm : AllAbi g.gen_module_) :
    ∃ g1, declareAll env g fns = some g1 := by
  induction fns generalizing g with
  | nil => exact ⟨g, rfl⟩
  | cons fn rest ih =>
    obtain ⟨g2, hd, hm2⟩ := declare_total hrun g fn (hty fn (List.mem_cons_self _ _)) hm
    obtain ⟨g1, h1⟩ := ih g2 (fun t ht => hty t (List.mem_cons_of_mem _ ht)) hm2
    exact ⟨g1, by simp [declareAll, hd, h1]⟩

theorem buildAll_total {env : Env} (hrun : ∀ ps f, (env.run ps f).isSome = true)
    (hlen : ∀ (fn : FunctionSymbol) (h : Nat) (m0 : Module),
      m0.functions.length ≤ (env.GenerateBasicBlocks fn h m0).functions.length)
    (reg : List (Nat × CodegenFunction)) (g : ModuleGenerator)
    (hreg : ∀ kv ∈ reg, kv.2.function < g.gen_module_.functions.length) :
    ∃ g1, buildAll env g reg = some g1 := by
  induction reg generalizing g with
  | nil => exact ⟨g, rfl⟩
  | cons kv rest ih =>
    obtain ⟨k, cgf⟩ := kv
    have hh : cgf.function < g.gen_module_.functions.length :=
      hreg (k, cgf) (List.mem_cons_self _ _)
    have hl := hlen cgf.symbol cgf.function g.gen_module_
    obtain ⟨g2, ho, hlen2, _⟩ := OptimizeFunction_total hrun
      { gen_module_ := env.GenerateBasicBlocks cgf.symbol cgf.function g.gen_module_,
        functions_ := g.functions_,
        log := g.log ++ [Event.BuildFunction cgf] ++
          [Event.GenerateBasicBlocks cgf.symbol cgf.function] }
      (h := cgf.function) (by simp only; omega)
    have hb : BuildFunction env g cgf = some g2 := by
      unfold BuildFunction
      simpa [ModuleGenerator.emit] using ho
    obtain ⟨g1, h1⟩ := ih g2 (by
      intro kv hkv
      have := hreg kv (List.mem_cons_of_mem _ hkv)
      rw [hlen2]
      simp only
      omega)
    exact ⟨g1, by simp [buildAll, hb, h1]⟩

/-- From a fresh generator `Generate` does return, with status 0, when the
retrieved symbols are all User or Kernel, every function already in the module
has the type `void (i8*)`, no pass run aborts and the translator removes no
function. -/
theorem Generate_returns {env : Env} (sdb : SymbolDatabase) {m : Module}
    (hty : ∀ t ∈ sdb.GetAllFunctions.2, t.type ≠ FunctionSymbolType.Unknown)
    (hm : AllAbi m) (hrun : ∀ ps f, (env.run ps f).isSome = true)
    (hlen : ∀ (fn : FunctionSymbol) (h : Nat) (m0 : Module),
      m0.functions.length ≤ (env.GenerateBasicBlocks fn h m0).functions.length) :
    ∃ g1, Generate env sdb (ModuleGenerator.new m) = some (0, g1) := by
  have h2 : ∃ g2, (if sdb.GetAllFunctions.1 = 0
        then declareAll env ((ModuleGenerator.new m).emit Event.createCompileUnit)
          sdb.GetAllFunctions.2
        else some ((ModuleGenerator.new m).emit Event.createCompileUnit)) = some g2 ∧
      ∀ kv ∈ g2.functions_, kv.2.function < g2.gen_module_.functions.length := by
    by_cases hok : sdb.GetAllFunctions.1 = 0
    · rw [if_pos hok]
      obtain ⟨g2, hd⟩ := declareAll_total hrun sdb.GetAllFunctions.2
        ((ModuleGenerator.new m).emit Event.createCompileUnit) hty hm
      refine ⟨g2, hd, ?_⟩
      intro kv hkv
      obtain ⟨_, _, _, _, _, hreg⟩ := declareAll_log hd
      rcases hreg kv hkv with h | ⟨_, _, _, f, hf, _⟩
      · simp [ModuleGenerator.emit, ModuleGenerator.new] at h
      · exact (List.getElem?_eq_some_iff.mp hf).1
    · rw [if_neg hok]
      exact ⟨_, rfl, by simp [ModuleGenerator.emit, ModuleGenerator.new]⟩
  obtain ⟨g2, hg2, hreg⟩ := h2
  obtain ⟨g3, hg3⟩ := buildAll_total hrun hlen g2.functions_ g2 hreg
  refine ⟨g3.emit Event.finalize, ?_⟩
  unfold Generate
  simp only [hg2, hg3]

/-! ## Generate: the returned status -/

/-- C3 as stated fails: a retrieval that reports failure (status 1) still
makes `Generate` return 0. -/
theorem Generate_returns_zero_on_failed_retrieval :
    failingDb.GetAllFunctions.1 ≠ 0 ∧
    (Generate plainEnv failingDb (ModuleGenerator.new emptyModule)).map Prod.fst = some 0 := by
  decide

/-- C3, amended. `Generate` returns 0 whenever it returns, whether or not the
catalog retrieval succeeded.  After a failed retrieval a fresh generator does
return, with nothing declared: the registry is empty and the module is the one
it was given.  After any retrieval it returns when the retrieved symbols are
all User or Kernel, the functions already in the module have the type
`void (i8*)`, no pass run aborts and the translator removes no function. -/
theorem Generate_status_always_zero (env : Env) (sdb : SymbolDatabase) (m : Module) :
    (∀ (g : ModuleGenerator) (r : Int) (g1 : ModuleGenerator),
      Generate env sdb g = some (r, g1) → r = 0) ∧
    (sdb.GetAllFunctions.1 ≠ 0 →
      ∃ g1, Generate env sdb (ModuleGenerator.new m) = some (0, g1) ∧
        g1.functions_ = [] ∧ g1.gen_module_ = m ∧
        g1.log = [Event.createCompileUnit, Event.finalize]) ∧
    ((∀ t ∈ sdb.GetAllFunctions.2, t.type ≠ FunctionSymbolType.Unknown) →
      AllAbi m → (∀ ps f, (env.run ps f).isSome = true) →
      (∀ (fn : FunctionSymbol) (h : Nat) (m0 : Module),
        m0.functions.length ≤ (env.GenerateBasicBlocks fn h m0).functions.length) →
      ∃ g1, Generate env sdb (ModuleGenerator.new m) = some (0, g1)) := by
  refine ⟨fun g r g1 hg => (Generate_stages hg).1, ?_, Generate_returns sdb⟩
  intro hfail
  refine ⟨((ModuleGenerator.new m).emit Event.createCompileUnit).emit Event.finalize,
    ?_, ?_, ?_, ?_⟩
  · unfold Generate
    simp only [if_neg hfail]
    rfl
  · rfl
  · rfl
  · rfl

theorem Generate_status_always_zero_witness :
    Generate plainEnv failingDb (ModuleGenerator.new emptyModule) = some (0, failingResult) ∧
    failingDb.GetAllFunctions.1 ≠ 0 ∧
    (0 : Int) = 0 ∧
    (∃ g1, Generate plainEnv failingDb (ModuleGenerator.new emptyModule) = some (0, g1) ∧
      g1.functions_ = [] ∧ g1.gen_module_ = emptyModule ∧
      g1.log = [Event.createCompileUnit, Event.finalize]) ∧
    (∀ t ∈ scenarioDb.GetAllFunctions.2, t.type ≠ FunctionSymbolType.Unknown) ∧
    ∃ g1, Generate plainEnv scenarioDb (ModuleGenerator.new emptyModule) = some (0, g1) :=
  ⟨rfl, by decide,
    (Generate_status_always_zero plainEnv failingDb emptyModule).1
      (ModuleGenerator.new emptyModule) 0 failingResult rfl,
    (Generate_status_always_zero plainEnv failingDb emptyModule).2.1 (by decide),
    by decide,
    (Generate_status_always_zero plainEnv scenarioDb emptyModule).2.2 (by decide)
      (fun _ hf => by cases hf) (fun _ _ => rfl) (fun _ _ _ => Nat.le_refl _)⟩

end Xenia
